import Mathlib

/-!
Verification of the RAGvix retrieval pipeline against its specification.

Each Python module under `src/ragvix/` that the claims touch is shallowly
embedded below: text is `List Char` (one entry per Unicode code point, as in
a Python `str`), machine integers are `Int`/`Nat`, fallible operations return
`Except`/`Option`, and external libraries (the sentence-embedding model and
the FAISS index) are abstracted as function parameters, since only their
interface contracts are visible from the repository.
-/

namespace RAGvix

/-! ## Python primitives

`pySlice l a b` models the Python slice `l[a:b]` (negative indices count from
the end, out-of-range bounds clamp).  `pyIdx l i` models `l[i]` (negative
index counts from the end; out of range raises `IndexError`, modelled as
`none`).  `pyStrip` models `str.strip()` restricted to ASCII whitespace,
which is the only whitespace the claims exercise. -/

def pySlice {α : Type} (l : List α) (a b : Int) : List α :=
  let n : Int := l.length
  let lo : Int := if a < 0 then max (n + a) 0 else min a n
  let hi : Int := if b < 0 then max (n + b) 0 else min b n
  (l.take hi.toNat).drop lo.toNat

def pyIdx {α : Type} (l : List α) (i : Int) : Option α :=
  let j : Int := if i < 0 then i + l.length else i
  if 0 ≤ j then l.get? j.toNat else none

def isPySpace (c : Char) : Bool :=
  c = ' ' || c = '\t' || c = '\n' || c = '\x0d' || c = '\x0b' || c = '\x0c'

def pyStrip (l : List Char) : List Char :=
  ((l.dropWhile isPySpace).reverse.dropWhile isPySpace).reverse

/-! ## `ragvix/index/chunker.py`

`chunk_text` slides a window of width `chunk_size` over the stripped text,
advancing by `step = max(chunk_size - overlap, 1)`, and stops ("break") as
soon as a window is shorter than `chunk_size * 0.1`.  The Python comparison
`len(chunk) < chunk_size * 0.1` is evaluated in binary floating point; we
use the exact-rational form `10 * len(chunk) < chunk_size`.  For the value
`chunk_size = 1200` used by every claim that reaches this comparison, the
float product `1200 * 0.1` is exactly `120.0`, so the two coincide.

The Python `for i in range(0, len(text), step)` loop is embedded with a
fuel parameter; `t.length + 1` units of fuel always suffice because the
window start advances by at least 1 per iteration (proved below, claim C9).

A chunk's `metadata` dictionary carries the keys written by `chunk_text`;
the three keys that only `chunk_papers_from_metadata` adds for whole
abstracts (`authors`, `categories`, `published`) are modelled as `Option`
fields that `chunk_text` leaves at `none`. -/

structure ChunkMeta where
  arxiv_id : String
  title : String
  sect : String
  chunk_index : Nat
  char_start : Nat
  char_end : Nat
  chunk_size : Nat
  authors : Option (List String)
  categories : Option (List String)
  published : Option String
deriving DecidableEq, Repr

structure Chunk where
  text : List Char
  metadata : ChunkMeta
deriving DecidableEq, Repr

def chunkStep (chunk_size overlap : Int) : Nat :=
  (max (chunk_size - overlap) 1).toNat

def chunkLoop (t : List Char) (cs : Int) (step : Nat)
    (aid title sect : String) : Nat → Nat → Nat → List Chunk
  | 0, _, _ => []
  | fuel + 1, i, idx =>
    if i < t.length then
      let piece := pySlice t (i : Int) ((i : Int) + cs)
      if 10 * (piece.length : Int) < cs then []
      else
        { text := piece,
          metadata :=
            { arxiv_id := aid, title := title, sect := sect,
              chunk_index := idx, char_start := i,
              char_end := i + piece.length, chunk_size := piece.length,
              authors := none, categories := none, published := none } } ::
          chunkLoop t cs step aid title sect fuel (i + step) (idx + 1)
    else []

def chunk_text (text : List Char) (chunk_size : Int := 1200)
    (overlap : Int := 120) (arxiv_id : String := "") (title : String := "")
    (sect : String := "main") : List Chunk :=
  if (pyStrip text).isEmpty then []
  else
    let t := pyStrip text
    chunkLoop t chunk_size (chunkStep chunk_size overlap)
      arxiv_id title sect (t.length + 1) 0 0

end RAGvix

namespace RAGvix

theorem pyStrip_replicate (n : Nat) : pyStrip (List.replicate n 'A') = List.replicate n 'A' := by
  have h : isPySpace 'A' = false := by decide
  cases n with
  | zero => rfl
  | succ m =>
    unfold pyStrip
    rw [List.replicate_succ, List.dropWhile_cons_of_neg (by simp [h])]
    rw [← List.replicate_succ, List.reverse_replicate]
    rw [List.replicate_succ, List.dropWhile_cons_of_neg (by simp [h])]
    rw [← List.replicate_succ, List.reverse_replicate]

theorem pySlice_replicate (n : Nat) (a b : Int) (ha : 0 ≤ a) (hb : 0 ≤ b) :
    pySlice (List.replicate n 'A') a b =
      List.replicate ((min b n).toNat - (min a n).toNat) 'A' := by
  simp only [pySlice]
  rw [if_neg (not_lt.mpr ha), if_neg (not_lt.mpr hb)]
  simp only [List.length_replicate, List.take_replicate, List.drop_replicate]
  congr 1
  omega

theorem chunkLoop_cons (t : List Char) (cs : Int) (step : Nat)
    (aid title sect : String) (f i idx : Nat) (hi : i < t.length)
    (hkeep : ¬ 10 * ((pySlice t (i : Int) ((i : Int) + cs)).length : Int) < cs) :
    chunkLoop t cs step aid title sect (f + 1) i idx =
      { text := pySlice t (i : Int) ((i : Int) + cs),
        metadata :=
          { arxiv_id := aid, title := title, sect := sect,
            chunk_index := idx, char_start := i,
            char_end := i + (pySlice t (i : Int) ((i : Int) + cs)).length,
            chunk_size := (pySlice t (i : Int) ((i : Int) + cs)).length,
            authors := none, categories := none, published := none } } ::
        chunkLoop t cs step aid title sect f (i + step) (idx + 1) := by
  simp [chunkLoop, hi, hkeep]

theorem chunkLoop_break (t : List Char) (cs : Int) (step : Nat)
    (aid title sect : String) (f i idx : Nat) (hi : i < t.length)
    (hsmall : 10 * ((pySlice t (i : Int) ((i : Int) + cs)).length : Int) < cs) :
    chunkLoop t cs step aid title sect (f + 1) i idx = [] := by
  simp [chunkLoop, hi, hsmall]

theorem chunkLoop_stop (t : List Char) (cs : Int) (step : Nat)
    (aid title sect : String) (f i idx : Nat) (hi : ¬ i < t.length) :
    chunkLoop t cs step aid title sect (f + 1) i idx = [] := by
  simp [chunkLoop, hi]

/-- The loop result does not change once the fuel covers the remaining
window starts: the loop terminates because the start advances by
`step ≥ 1` each iteration. -/
theorem chunkLoop_fuel_stable (t : List Char) (cs : Int) (step : Nat)
    (aid title sect : String) (hstep : 1 ≤ step) :
    ∀ fuel fuel' i idx, t.length - i < fuel → t.length - i < fuel' →
      chunkLoop t cs step aid title sect fuel i idx =
        chunkLoop t cs step aid title sect fuel' i idx := by
  intro fuel
  induction fuel with
  | zero => intro fuel' i idx h; omega
  | succ f ih =>
    intro fuel' i idx h h'
    match fuel', h' with
    | f' + 1, h' =>
      show chunkLoop t cs step aid title sect (f + 1) i idx =
        chunkLoop t cs step aid title sect (f' + 1) i idx
      by_cases hi : i < t.length
      · have hrec : t.length - (i + step) < f := by omega
        have hrec' : t.length - (i + step) < f' := by omega
        simp only [chunkLoop, hi, if_true]
        rw [ih f' (i + step) (idx + 1) hrec hrec']
      · simp only [chunkLoop, hi, if_false]

/-- Element `j` of the loop output is the window starting at `i + j * step`:
its text is the Python slice `t[start : start + cs]`, its index is `idx + j`,
and its offsets record the slice's position and length. -/
theorem chunkLoop_get (t : List Char) (cs : Int) (step : Nat)
    (aid title sect : String) (hstep : 1 ≤ step) :
    ∀ fuel i idx, t.length - i < fuel →
      ∀ j, j < (chunkLoop t cs step aid title sect fuel i idx).length →
        (chunkLoop t cs step aid title sect fuel i idx).get? j =
          some
          { text := pySlice t ((i + j * step : Nat) : Int)
              (((i + j * step : Nat) : Int) + cs),
            metadata :=
              { arxiv_id := aid, title := title, sect := sect,
                chunk_index := idx + j, char_start := i + j * step,
                char_end := i + j * step +
                  (pySlice t ((i + j * step : Nat) : Int)
                    (((i + j * step : Nat) : Int) + cs)).length,
                chunk_size :=
                  (pySlice t ((i + j * step : Nat) : Int)
                    (((i + j * step : Nat) : Int) + cs)).length,
                authors := none, categories := none, published := none } } := by
  intro fuel
  induction fuel with
  | zero => intro i idx h; omega
  | succ f ih =>
    intro i idx hfuel j h
    by_cases hi : i < t.length
    · by_cases hsmall :
          10 * ((pySlice t (i : Int) ((i : Int) + cs)).length : Int) < cs
      · have hnil : chunkLoop t cs step aid title sect (f + 1) i idx = [] := by
          simp [chunkLoop, hi, hsmall]
        rw [hnil] at h
        exact absurd h (by simp)
      · have hunf : chunkLoop t cs step aid title sect (f + 1) i idx =
            { text := pySlice t (i : Int) ((i : Int) + cs),
              metadata :=
                { arxiv_id := aid, title := title, sect := sect,
                  chunk_index := idx, char_start := i,
                  char_end := i + (pySlice t (i : Int) ((i : Int) + cs)).length,
                  chunk_size := (pySlice t (i : Int) ((i : Int) + cs)).length,
                  authors := none, categories := none, published := none } } ::
              chunkLoop t cs step aid title sect f (i + step) (idx + 1) := by
          simp [chunkLoop, hi, hsmall]
        rw [hunf] at h ⊢
        match j with
        | 0 => simp
        | j' + 1 =>
          have h' : j' <
              (chunkLoop t cs step aid title sect f (i + step) (idx + 1)).length := by
            simpa using Nat.lt_of_succ_lt_succ h
          have := ih (i + step) (idx + 1) (by omega) j' h'
          simp only [List.get?_cons_succ]
          rw [this]
          have harith : i + step + j' * step = i + (j' + 1) * step := by ring
          have harith2 : idx + 1 + j' = idx + (j' + 1) := by ring
          simp [harith, harith2]
    · have hnil : chunkLoop t cs step aid title sect (f + 1) i idx = [] := by
        simp [chunkLoop, hi]
      rw [hnil] at h
      exact absurd h (by simp)

theorem one_le_chunkStep (cs ov : Int) : 1 ≤ chunkStep cs ov := by
  simp only [chunkStep]
  omega

/-- C1.  Chunking `"A" * 2000` with `chunk_size = 1200`, `overlap = 120`
produces exactly the two records stated by the spec (chunk 0 covers
`[0, 1200)`, chunk 1 covers `[1080, 2000)` with length 920); and in general
the window step is `max(chunk_size - overlap, 1)`, kept chunk `j` is the
Python slice `text[j*step : j*step + chunk_size]` of the stripped text, and
chunk indices are assigned sequentially from 0. -/
theorem chunk_text_window_spec :
    (chunk_text (List.replicate 2000 'A') 1200 120 "" "" "main" =
      [ { text := List.replicate 1200 'A',
          metadata := { arxiv_id := "", title := "", sect := "main",
                        chunk_index := 0, char_start := 0, char_end := 1200,
                        chunk_size := 1200, authors := none, categories := none,
                        published := none } },
        { text := List.replicate 920 'A',
          metadata := { arxiv_id := "", title := "", sect := "main",
                        chunk_index := 1, char_start := 1080, char_end := 2000,
                        chunk_size := 920, authors := none, categories := none,
                        published := none } } ]) ∧
    (∀ (text : List Char) (cs ov : Int) (aid ti se : String) (j : Nat),
      j < (chunk_text text cs ov aid ti se).length →
      (chunk_text text cs ov aid ti se).get? j =
        some
        { text := pySlice (pyStrip text) ((j * chunkStep cs ov : Nat) : Int)
            (((j * chunkStep cs ov : Nat) : Int) + cs),
          metadata :=
            { arxiv_id := aid, title := ti, sect := se,
              chunk_index := j, char_start := j * chunkStep cs ov,
              char_end := j * chunkStep cs ov +
                (pySlice (pyStrip text) ((j * chunkStep cs ov : Nat) : Int)
                  (((j * chunkStep cs ov : Nat) : Int) + cs)).length,
              chunk_size :=
                (pySlice (pyStrip text) ((j * chunkStep cs ov : Nat) : Int)
                  (((j * chunkStep cs ov : Nat) : Int) + cs)).length,
              authors := none, categories := none, published := none } }) := by
  constructor
  · have hstrip := pyStrip_replicate 2000
    have hstep : chunkStep 1200 120 = 1080 := by decide
    have hs1 : pySlice (List.replicate 2000 'A') ((0 : Nat) : Int)
        (((0 : Nat) : Int) + 1200) = List.replicate 1200 'A' := by
      rw [pySlice_replicate _ _ _ (by norm_num) (by norm_num)]
      congr 1
    have hs2 : pySlice (List.replicate 2000 'A') ((1080 : Nat) : Int)
        (((1080 : Nat) : Int) + 1200) = List.replicate 920 'A' := by
      rw [pySlice_replicate _ _ _ (by norm_num) (by norm_num)]
      congr 1
    have hi1 : (0 : Nat) < (List.replicate 2000 'A').length := by
      rw [List.length_replicate]; norm_num
    have hi2 : (1080 : Nat) < (List.replicate 2000 'A').length := by
      rw [List.length_replicate]; norm_num
    have hi3 : ¬ (2160 : Nat) < (List.replicate 2000 'A').length := by
      rw [List.length_replicate]; norm_num
    have hk1 : ¬ 10 * (((pySlice (List.replicate 2000 'A') ((0 : Nat) : Int)
        (((0 : Nat) : Int) + 1200)).length : Int)) < 1200 := by
      rw [hs1, List.length_replicate]; norm_num
    have hk2 : ¬ 10 * (((pySlice (List.replicate 2000 'A') ((1080 : Nat) : Int)
        (((1080 : Nat) : Int) + 1200)).length : Int)) < 1200 := by
      rw [hs2, List.length_replicate]; norm_num
    simp only [chunk_text, hstrip, List.length_replicate]
    rw [if_neg (by simp)]
    rw [hstep]
    rw [chunkLoop_cons _ _ _ _ _ _ 2000 0 0 hi1 hk1]
    rw [hs1]
    rw [show (0 + 1080 : Nat) = 1080 from rfl]
    rw [show (2000 : Nat) = 1999 + 1 from rfl]
    rw [chunkLoop_cons _ _ _ _ _ _ 1999 1080 1 hi2 hk2]
    rw [hs2]
    rw [show (1080 + 1080 : Nat) = 2160 from rfl]
    rw [show (1999 : Nat) = 1998 + 1 from rfl]
    rw [chunkLoop_stop _ _ _ _ _ _ 1998 2160 2 hi3]
    simp only [List.length_replicate]
  · intro text cs ov aid ti se j hj
    by_cases hemp : (pyStrip text).isEmpty
    · rw [chunk_text, if_pos hemp] at hj
      exact absurd hj (by simp)
    · have hunf : chunk_text text cs ov aid ti se =
          chunkLoop (pyStrip text) cs (chunkStep cs ov) aid ti se
            ((pyStrip text).length + 1) 0 0 := by
        rw [chunk_text, if_neg hemp]
      rw [hunf] at hj ⊢
      have := chunkLoop_get (pyStrip text) cs (chunkStep cs ov) aid ti se
        (one_le_chunkStep cs ov) ((pyStrip text).length + 1) 0 0 (by omega) j hj
      simpa using this

/-- C1 witness: a concrete instance of the general window property, at a
text of two characters with `chunk_size = 1`, `overlap = 0`. -/
theorem chunk_text_window_spec_witness :
    0 < (chunk_text ['A', 'B'] 1 0 "x" "y" "z").length ∧
    (chunk_text ['A', 'B'] 1 0 "x" "y" "z").get? 0 =
      some
      { text := pySlice (pyStrip ['A', 'B']) ((0 * chunkStep 1 0 : Nat) : Int)
          (((0 * chunkStep 1 0 : Nat) : Int) + 1),
        metadata :=
          { arxiv_id := "x", title := "y", sect := "z",
            chunk_index := 0, char_start := 0 * chunkStep 1 0,
            char_end := 0 * chunkStep 1 0 +
              (pySlice (pyStrip ['A', 'B']) ((0 * chunkStep 1 0 : Nat) : Int)
                (((0 * chunkStep 1 0 : Nat) : Int) + 1)).length,
            chunk_size :=
              (pySlice (pyStrip ['A', 'B']) ((0 * chunkStep 1 0 : Nat) : Int)
                (((0 * chunkStep 1 0 : Nat) : Int) + 1)).length,
            authors := none, categories := none, published := none } } :=
  ⟨by decide, chunk_text_window_spec.2 ['A', 'B'] 1 0 "x" "y" "z" 0 (by decide)⟩

/-- C2 counterexample.  The claim says chunking a text of length 1205 with
`chunk_size = 1200`, `overlap = 120` discards the trailing fragment and
returns exactly 1 chunk.  In the code the second window starts at 1080 and
has length `1205 - 1080 = 125 ≥ 120 = 10%` of `chunk_size`, so it is kept:
the result has exactly 2 chunks. -/
theorem chunk_text_1205_two_chunks :
    (chunk_text (List.replicate 1205 'A') 1200 120 "" "" "main").length = 2 := by
  have hstrip := pyStrip_replicate 1205
  have hstep : chunkStep 1200 120 = 1080 := by decide
  have hs1 : pySlice (List.replicate 1205 'A') ((0 : Nat) : Int)
      (((0 : Nat) : Int) + 1200) = List.replicate 1200 'A' := by
    rw [pySlice_replicate _ _ _ (by norm_num) (by norm_num)]
    congr 1
  have hs2 : pySlice (List.replicate 1205 'A') ((1080 : Nat) : Int)
      (((1080 : Nat) : Int) + 1200) = List.replicate 125 'A' := by
    rw [pySlice_replicate _ _ _ (by norm_num) (by norm_num)]
    congr 1
  have hi1 : (0 : Nat) < (List.replicate 1205 'A').length := by
    rw [List.length_replicate]; norm_num
  have hi2 : (1080 : Nat) < (List.replicate 1205 'A').length := by
    rw [List.length_replicate]; norm_num
  have hi3 : ¬ (2160 : Nat) < (List.replicate 1205 'A').length := by
    rw [List.length_replicate]; norm_num
  have hk1 : ¬ 10 * (((pySlice (List.replicate 1205 'A') ((0 : Nat) : Int)
      (((0 : Nat) : Int) + 1200)).length : Int)) < 1200 := by
    rw [hs1, List.length_replicate]; norm_num
  have hk2 : ¬ 10 * (((pySlice (List.replicate 1205 'A') ((1080 : Nat) : Int)
      (((1080 : Nat) : Int) + 1200)).length : Int)) < 1200 := by
    rw [hs2, List.length_replicate]; norm_num
  simp only [chunk_text, hstrip, List.length_replicate]
  rw [if_neg (by simp)]
  rw [hstep]
  rw [chunkLoop_cons _ _ _ _ _ _ 1205 0 0 hi1 hk1]
  rw [show (0 + 1080 : Nat) = 1080 from rfl]
  rw [show (1205 : Nat) = 1204 + 1 from rfl]
  rw [chunkLoop_cons _ _ _ _ _ _ 1204 1080 1 hi2 hk2]
  rw [show (1080 + 1080 : Nat) = 2160 from rfl]
  rw [show (1204 : Nat) = 1203 + 1 from rfl]
  rw [chunkLoop_stop _ _ _ _ _ _ 1203 2160 2 hi3]
  rfl

/-- C2 amended.  Tail suppression does exist, but at length 1205 the second
window (length 125) is at least 10% of `chunk_size` and is kept, giving 2
chunks; a text of length 1085 has a second window of length 5 < 120, which
is discarded, giving exactly 1 chunk. -/
theorem chunk_text_tail_suppression :
    chunk_text (List.replicate 1085 'A') 1200 120 "" "" "main" =
      [ { text := List.replicate 1085 'A',
          metadata := { arxiv_id := "", title := "", sect := "main",
                        chunk_index := 0, char_start := 0, char_end := 1085,
                        chunk_size := 1085, authors := none, categories := none,
                        published := none } } ] ∧
    (chunk_text (List.replicate 1205 'A') 1200 120 "" "" "main").length = 2 := by
  constructor
  · have hstrip := pyStrip_replicate 1085
    have hstep : chunkStep 1200 120 = 1080 := by decide
    have hs1 : pySlice (List.replicate 1085 'A') ((0 : Nat) : Int)
        (((0 : Nat) : Int) + 1200) = List.replicate 1085 'A' := by
      rw [pySlice_replicate _ _ _ (by norm_num) (by norm_num)]
      congr 1
    have hs2 : pySlice (List.replicate 1085 'A') ((1080 : Nat) : Int)
        (((1080 : Nat) : Int) + 1200) = List.replicate 5 'A' := by
      rw [pySlice_replicate _ _ _ (by norm_num) (by norm_num)]
      congr 1
    have hi1 : (0 : Nat) < (List.replicate 1085 'A').length := by
      rw [List.length_replicate]; norm_num
    have hi2 : (1080 : Nat) < (List.replicate 1085 'A').length := by
      rw [List.length_replicate]; norm_num
    have hk1 : ¬ 10 * (((pySlice (List.replicate 1085 'A') ((0 : Nat) : Int)
        (((0 : Nat) : Int) + 1200)).length : Int)) < 1200 := by
      rw [hs1, List.length_replicate]; norm_num
    have hk2 : 10 * (((pySlice (List.replicate 1085 'A') ((1080 : Nat) : Int)
        (((1080 : Nat) : Int) + 1200)).length : Int)) < 1200 := by
      rw [hs2, List.length_replicate]; norm_num
    simp only [chunk_text, hstrip, List.length_replicate]
    rw [if_neg (by simp)]
    rw [hstep]
    rw [chunkLoop_cons _ _ _ _ _ _ 1085 0 0 hi1 hk1]
    rw [hs1]
    rw [show (0 + 1080 : Nat) = 1080 from rfl]
    rw [show (1085 : Nat) = 1084 + 1 from rfl]
    rw [chunkLoop_break _ _ _ _ _ _ 1084 1080 1 hi2 hk2]
    simp only [List.length_replicate]
  · have hstrip := pyStrip_replicate 1205
    have hstep : chunkStep 1200 120 = 1080 := by decide
    have hs1 : pySlice (List.replicate 1205 'A') ((0 : Nat) : Int)
        (((0 : Nat) : Int) + 1200) = List.replicate 1200 'A' := by
      rw [pySlice_replicate _ _ _ (by norm_num) (by norm_num)]
      congr 1
    have hs2 : pySlice (List.replicate 1205 'A') ((1080 : Nat) : Int)
        (((1080 : Nat) : Int) + 1200) = List.replicate 125 'A' := by
      rw [pySlice_replicate _ _ _ (by norm_num) (by norm_num)]
      congr 1
    have hi1 : (0 : Nat) < (List.replicate 1205 'A').length := by
      rw [List.length_replicate]; norm_num
    have hi2 : (1080 : Nat) < (List.replicate 1205 'A').length := by
      rw [List.length_replicate]; norm_num
    have hi3 : ¬ (2160 : Nat) < (List.replicate 1205 'A').length := by
      rw [List.length_replicate]; norm_num
    have hk1 : ¬ 10 * (((pySlice (List.replicate 1205 'A') ((0 : Nat) : Int)
        (((0 : Nat) : Int) + 1200)).length : Int)) < 1200 := by
      rw [hs1, List.length_replicate]; norm_num
    have hk2 : ¬ 10 * (((pySlice (List.replicate 1205 'A') ((1080 : Nat) : Int)
        (((1080 : Nat) : Int) + 1200)).length : Int)) < 1200 := by
      rw [hs2, List.length_replicate]; norm_num
    simp only [chunk_text, hstrip, List.length_replicate]
    rw [if_neg (by simp)]
    rw [hstep]
    rw [chunkLoop_cons _ _ _ _ _ _ 1205 0 0 hi1 hk1]
    rw [show (0 + 1080 : Nat) = 1080 from rfl]
    rw [show (1205 : Nat) = 1204 + 1 from rfl]
    rw [chunkLoop_cons _ _ _ _ _ _ 1204 1080 1 hi2 hk2]
    rw [show (1080 + 1080 : Nat) = 2160 from rfl]
    rw [show (1204 : Nat) = 1203 + 1 from rfl]
    rw [chunkLoop_stop _ _ _ _ _ _ 1203 2160 2 hi3]
    rfl

/-- C9.  `chunk_text` terminates for every text and all integer
`chunk_size` / `overlap` (including `overlap ≥ chunk_size`): the window step
`max(chunk_size - overlap, 1)` is always at least 1, so the loop's result is
already stable at `length + 1` iterations — any fuel beyond that bound gives
the same (total) value. -/
theorem chunk_text_terminates :
    (∀ cs ov : Int, 1 ≤ chunkStep cs ov) ∧
    (∀ (text : List Char) (cs ov : Int) (aid ti se : String) (fuel : Nat),
      (pyStrip text).length < fuel →
      chunkLoop (pyStrip text) cs (chunkStep cs ov) aid ti se fuel 0 0 =
        chunk_text text cs ov aid ti se) := by
  refine ⟨one_le_chunkStep, ?_⟩
  intro text cs ov aid ti se fuel hfuel
  by_cases hemp : (pyStrip text).isEmpty
  · have hlen : (pyStrip text).length = 0 := by
      simpa [List.isEmpty_iff, List.length_eq_zero] using hemp
    rw [chunk_text, if_pos hemp]
    match fuel, hfuel with
    | f + 1, _ =>
      exact chunkLoop_stop _ _ _ _ _ _ f 0 0 (by omega)
  · rw [chunk_text, if_neg hemp]
    exact chunkLoop_fuel_stable (pyStrip text) cs (chunkStep cs ov) aid ti se
      (one_le_chunkStep cs ov) fuel ((pyStrip text).length + 1) 0 0
      (by omega) (by omega)

/-- C9 witness: at a one-character text and fuel 3 the stabilised loop value
coincides with `chunk_text`. -/
theorem chunk_text_terminates_witness :
    (pyStrip ['A']).length < 3 ∧
    chunkLoop (pyStrip ['A']) 1200 (chunkStep 1200 120) "" "" "main" 3 0 0 =
      chunk_text ['A'] 1200 120 "" "" "main" :=
  ⟨by decide, chunk_text_terminates.2 ['A'] 1200 120 "" "" "main" 3 (by decide)⟩

/-! ## `ragvix/eval/retrieval_eval.py`

`compute_precision_at_k` receives the ordered retrieved ids and the set of
relevant ids.  The Python set `set(retrieved_ids[:k])` is modelled as
`List.dedup` of the slice (one representative per distinct id); the
relevant-id set parameter is modelled as a list queried only through
membership, so duplicates in it are irrelevant.  Python's float division of
two ints is modelled as exact division in `ℚ`. -/

def compute_precision_at_k (retrieved_ids : List String)
    (relevant_ids : List String) (k : Int := 5) : ℚ :=
  let atK := pySlice retrieved_ids 0 k
  if atK.isEmpty then 0
  else
    let retrieved_at_k := atK.dedup
    ((retrieved_at_k.filter (fun x => relevant_ids.contains x)).length : ℚ) /
      (retrieved_at_k.length : ℚ)

/-- Modelled from the words of claim C3 only, as the refinement target to
compare with `compute_precision_at_k`: "the number of relevant ids among
the first k retrieved ids divided by the length of that first-k slice
`|retrieved[:k]|` (i.e., the list-slice length is the denominator)". -/
def precisionAtK_claimText (retrieved_ids : List String)
    (relevant_ids : List String) (k : Int := 5) : ℚ :=
  let atK := pySlice retrieved_ids 0 k
  if atK.isEmpty then 0
  else
    ((atK.dedup.filter (fun x => relevant_ids.contains x)).length : ℚ) /
      (atK.length : ℚ)

/-- C3 counterexample.  When the first-k slice contains a duplicate, the
code divides by the number of distinct ids, not by the slice length: for
`retrieved = ["a","a","b"]`, `relevant = {"b"}`, `k = 3` the code returns
`1/2` while the claim's formula gives `1/3`. -/
theorem compute_precision_slice_denominator_refuted :
    compute_precision_at_k ["a", "a", "b"] ["b"] 3 = 1 / 2 ∧
    precisionAtK_claimText ["a", "a", "b"] ["b"] 3 = 1 / 3 ∧
    compute_precision_at_k ["a", "a", "b"] ["b"] 3 ≠
      precisionAtK_claimText ["a", "a", "b"] ["b"] 3 := by
  have hslice : pySlice (["a", "a", "b"] : List String) 0 3 = ["a", "a", "b"] := by
    decide
  have h1 : ((["a", "a", "b"] : List String).dedup.filter
      (fun x => (["b"] : List String).contains x)).length = 1 := by decide
  have h2 : (["a", "a", "b"] : List String).dedup.length = 2 := by decide
  have h3 : (["a", "a", "b"] : List String).length = 3 := by decide
  have hc : compute_precision_at_k ["a", "a", "b"] ["b"] 3 = 1 / 2 := by
    simp only [compute_precision_at_k, hslice]
    rw [if_neg (by decide), h1, h2]
    norm_num
  have hs : precisionAtK_claimText ["a", "a", "b"] ["b"] 3 = 1 / 3 := by
    simp only [precisionAtK_claimText, hslice]
    rw [if_neg (by decide), h1, h3]
    norm_num
  refine ⟨hc, hs, ?_⟩
  rw [hc, hs]
  norm_num

/-- C3 amended.  `compute_precision_at_k` returns 0 when the first-k slice
is empty, and otherwise divides the number of distinct relevant ids in the
slice by the number of distinct ids in the slice (for duplicate-free
slices this coincides with the claim's slice-length denominator, e.g. the
stated `2/5 = 0.4` example). -/
theorem compute_precision_distinct_denominator :
    (∀ (retrieved_ids relevant_ids : List String) (k : Int),
      compute_precision_at_k retrieved_ids relevant_ids k =
        if pySlice retrieved_ids 0 k = [] then 0
        else
          (((pySlice retrieved_ids 0 k).toFinset ∩ relevant_ids.toFinset).card : ℚ) /
            (((pySlice retrieved_ids 0 k).toFinset.card : ℚ))) ∧
    compute_precision_at_k ["a", "b", "c", "d", "e"] ["b", "d", "z"] 5 = 2 / 5 := by
  constructor
  · intro retrieved relevant k
    simp only [compute_precision_at_k]
    by_cases hemp : pySlice retrieved 0 k = []
    · simp [hemp]
    · rw [if_neg (by simpa [List.isEmpty_iff] using hemp), if_neg hemp]
      have hdt : ∀ l : List String, l.dedup.toFinset = l.toFinset := by
        intro l
        ext x
        simp [List.mem_toFinset, List.mem_dedup]
      have hden : (pySlice retrieved 0 k).dedup.length =
          (pySlice retrieved 0 k).toFinset.card := by
        rw [← List.toFinset_card_of_nodup (List.nodup_dedup _), hdt]
      have hnum : ((pySlice retrieved 0 k).dedup.filter
            (fun x => relevant.contains x)).length =
          ((pySlice retrieved 0 k).toFinset ∩ relevant.toFinset).card := by
        rw [← List.toFinset_card_of_nodup
          ((List.nodup_dedup _).filter (fun x => relevant.contains x))]
        rw [List.toFinset_filter, hdt]
        congr 1
        rw [← Finset.filter_mem_eq_inter]
        apply Finset.filter_congr
        intro x _
        simp
      rw [hden, hnum]
  · have hslice : pySlice (["a", "b", "c", "d", "e"] : List String) 0 5 =
        ["a", "b", "c", "d", "e"] := by decide
    have h1 : ((["a", "b", "c", "d", "e"] : List String).dedup.filter
        (fun x => (["b", "d", "z"] : List String).contains x)).length = 2 := by decide
    have h2 : (["a", "b", "c", "d", "e"] : List String).dedup.length = 5 := by decide
    simp only [compute_precision_at_k, hslice]
    rw [if_neg (by decide), h1, h2]
    norm_num

/-! ## `ragvix/index/faiss_store.py`

The store keeps an optional FAISS index and a parallel metadata list.  The
two external dependencies are abstracted by parameters: `encode` is the
sentence-transformers model applied to one text (`model.encode(texts)`
returns one row per input text, so the batch call is `texts.map encode`),
`normalize_L2` is FAISS's in-place L2 normalisation, and `faiss_search` is
`index.search`, returning `(score, idx)` pairs where `idx = -1` marks an
invalid slot.  The index itself is modelled by the list of vectors added to
it, in insertion order, so `ntotal` is that list's length.  Vector values
play no role in the counting claims.  `metadata[idx]` uses Python indexing
(`pyIdx`); an out-of-range index raises `IndexError`.

A directory produced by `save` is modelled by `IndexDir`: the `faiss.index`
file contents, the `meta.jsonl` records, and the three `config.json`
fields.  `load` reads all three back, replacing in-memory state (a model
name mismatch only logs a warning, leaving no trace in the state).  The
result formatting that `Retriever.search` adds to each hit is presentation
over dynamic dictionaries and is not modelled; results are `(score,
metadata)` pairs as produced by `FAISSStore.search`. -/

structure SChunk (M : Type) where
  text : List Char
  metadata : M
deriving DecidableEq, Repr

structure FAISSStore (V M : Type) where
  model_name : String
  dimension : Nat
  index : Option (List V)
  metadata : List M
deriving DecidableEq, Repr

def mkFAISSStore {V M : Type} (model_name : String) (dimension : Nat) :
    FAISSStore V M :=
  { model_name := model_name, dimension := dimension, index := none,
    metadata := [] }

def FAISSStore.ntotal {V M : Type} (s : FAISSStore V M) : Nat :=
  (s.index.getD []).length

inductive StoreErr where
  | indexNotBuilt
  | noIndexToSave
  | indexOutOfRange
  | fileNotFound (path : String)
deriving DecidableEq, Repr

def FAISSStore.build_index {V M : Type} (encode : List Char → V)
    (normalize_L2 : V → V) (s : FAISSStore V M) (chunks : List (SChunk M)) :
    FAISSStore V M :=
  if chunks.isEmpty then s
  else
    { s with
      index := some (((chunks.map SChunk.text).map encode).map normalize_L2),
      metadata := chunks.map SChunk.metadata }

def collectResults {M : Type} (metadata : List M) :
    List (ℚ × Int) → Except StoreErr (List (ℚ × M))
  | [] => .ok []
  | (score, idx) :: rest =>
    if idx = -1 then collectResults metadata rest
    else
      match pyIdx metadata idx with
      | some m => (collectResults metadata rest).map (fun l => (score, m) :: l)
      | none => .error .indexOutOfRange

def FAISSStore.search {V M : Type} (encode : List Char → V)
    (normalize_L2 : V → V) (faiss_search : List V → V → Int → List (ℚ × Int))
    (s : FAISSStore V M) (query : List Char) (k : Int := 5) :
    Except StoreErr (List (ℚ × M)) :=
  match s.index with
  | none => .error .indexNotBuilt
  | some vecs =>
    let query_embedding := normalize_L2 (encode query)
    collectResults s.metadata (faiss_search vecs query_embedding k)

structure IndexDir (V M : Type) where
  faissFile : List V
  metaFile : List M
  cfg_model_name : String
  cfg_dimension : Nat
  cfg_num_vectors : Nat
deriving DecidableEq, Repr

def FAISSStore.save {V M : Type} (s : FAISSStore V M) :
    Except StoreErr (IndexDir V M) :=
  match s.index with
  | none => .error .noIndexToSave
  | some vecs =>
    .ok { faissFile := vecs, metaFile := s.metadata,
          cfg_model_name := s.model_name, cfg_dimension := s.dimension,
          cfg_num_vectors := vecs.length }

def FAISSStore.load {V M : Type} (s : FAISSStore V M) (dir : IndexDir V M) :
    FAISSStore V M :=
  { s with index := some dir.faissFile, metadata := dir.metaFile }

def load_index {V M : Type} (model_name : String) (dimension : Nat)
    (dir : IndexDir V M) : FAISSStore V M :=
  (mkFAISSStore model_name dimension).load dir

/-! ## `ragvix/retriever/retriever.py`

`Retriever` holds a configured index path and an optional store.  The
filesystem contents at that path are an explicit argument `env`:
`none` means `config.json` does not exist there, `some dir` means a
complete readable index directory is present. -/

structure Retriever (V M : Type) where
  index_path : String
  store : Option (FAISSStore V M)
deriving DecidableEq, Repr

def Retriever.load_index {V M : Type} (model_name : String) (dimension : Nat)
    (r : Retriever V M) (env : Option (IndexDir V M)) :
    Except StoreErr (Retriever V M) :=
  match env with
  | none => .error (.fileNotFound r.index_path)
  | some dir =>
    .ok { r with store := some (RAGvix.load_index model_name dimension dir) }

def Retriever.search {V M : Type} (encode : List Char → V)
    (normalize_L2 : V → V) (faiss_search : List V → V → Int → List (ℚ × Int))
    (model_name : String) (dimension : Nat) (r : Retriever V M)
    (env : Option (IndexDir V M)) (query : List Char) (k : Int := 5) :
    Except StoreErr (List (ℚ × M) × Retriever V M) :=
  match r.store with
  | some s =>
    (s.search encode normalize_L2 faiss_search query k).map (fun res => (res, r))
  | none =>
    match env with
    | none => .error (.fileNotFound r.index_path)
    | some dir =>
      let s := RAGvix.load_index model_name dimension dir
      (s.search encode normalize_L2 faiss_search query k).map
        (fun res => (res, { r with store := some s }))

theorem pyIdx_of_nonneg {α : Type} (l : List α) (i : Int) (h0 : 0 ≤ i) :
    pyIdx l i = l.get? i.toNat := by
  simp [pyIdx, not_lt.mpr h0]

theorem collectResults_ok {M : Type} (metadata : List M) :
    ∀ hits : List (ℚ × Int),
      (∀ p ∈ hits, p.2 = -1 ∨ (0 ≤ p.2 ∧ p.2 < (metadata.length : Int))) →
      ∃ out, collectResults metadata hits = .ok out := by
  intro hits
  induction hits with
  | nil => exact fun _ => ⟨[], rfl⟩
  | cons p rest ih =>
    intro hp
    obtain ⟨out', hout'⟩ := ih (fun q hq => hp q (List.mem_cons_of_mem _ hq))
    obtain ⟨score, idx⟩ := p
    by_cases hneg : idx = -1
    · refine ⟨out', ?_⟩
      subst hneg
      simpa [collectResults] using hout'
    · have h2 : 0 ≤ idx ∧ idx < (metadata.length : Int) := by
        rcases hp (score, idx) (List.mem_cons_self _ _) with h1 | h2
        · exact absurd h1 hneg
        · exact h2
      have hlt : idx.toNat < metadata.length := by omega
      have hm : pyIdx metadata idx = some (metadata.get ⟨idx.toNat, hlt⟩) := by
        rw [pyIdx_of_nonneg metadata idx h2.1, List.get?_eq_get hlt]
      refine ⟨(score, metadata.get ⟨idx.toNat, hlt⟩) :: out', ?_⟩
      simp only [collectResults, if_neg hneg, hm, hout']
      rfl

/-- C6.  Searching a freshly constructed store — on which no `build_index`
and no `load` has ever succeeded — raises the invalid-state error "Index
not built" and produces no results, for every query and every `k`; this
also holds after a `build_index` call on an empty chunk list, which leaves
the state untouched. -/
theorem search_before_build_fails :
    ∀ (V M : Type) (encode : List Char → V) (normalize_L2 : V → V)
      (faiss_search : List V → V → Int → List (ℚ × Int))
      (mn : String) (dim : Nat) (q : List Char) (k : Int),
      FAISSStore.search encode normalize_L2 faiss_search
        (mkFAISSStore mn dim : FAISSStore V M) q k = .error .indexNotBuilt ∧
      FAISSStore.search encode normalize_L2 faiss_search
        ((mkFAISSStore mn dim : FAISSStore V M).build_index encode
          normalize_L2 []) q k = .error .indexNotBuilt := by
  intro V M encode normalize_L2 faiss_search mn dim q k
  exact ⟨rfl, rfl⟩

/-- C4.  After a successful build on a non-empty chunk list, the index's
vector count, the metadata list length and the input chunk count agree;
and loading a directory persisted by `save` after such a build restores a
store whose vector count equals the number of records in the loaded
metadata file. -/
theorem build_load_count_invariant :
    (∀ (V M : Type) (encode : List Char → V) (normalize_L2 : V → V)
      (s : FAISSStore V M) (chunks : List (SChunk M)), chunks ≠ [] →
      (s.build_index encode normalize_L2 chunks).ntotal =
        (s.build_index encode normalize_L2 chunks).metadata.length ∧
      (s.build_index encode normalize_L2 chunks).metadata.length =
        chunks.length) ∧
    (∀ (V M : Type) (encode : List Char → V) (normalize_L2 : V → V)
      (s s₁ : FAISSStore V M) (chunks : List (SChunk M)) (dir : IndexDir V M),
      chunks ≠ [] →
      (s.build_index encode normalize_L2 chunks).save = .ok dir →
      (s₁.load dir).ntotal = (s₁.load dir).metadata.length ∧
      (s₁.load dir).metadata.length = dir.metaFile.length) := by
  constructor
  · intro V M encode normalize_L2 s chunks hne
    have hemp : chunks.isEmpty = false := by
      simpa [List.isEmpty_iff] using hne
    simp [FAISSStore.build_index, hemp, FAISSStore.ntotal]
  · intro V M encode normalize_L2 s s₁ chunks dir hne hsave
    have hemp : chunks.isEmpty = false := by
      simpa [List.isEmpty_iff] using hne
    simp only [FAISSStore.build_index, hemp, Bool.false_eq_true, if_false,
      FAISSStore.save] at hsave
    have hdir : dir =
        { faissFile := ((chunks.map SChunk.text).map encode).map normalize_L2,
          metaFile := chunks.map SChunk.metadata,
          cfg_model_name := s.model_name, cfg_dimension := s.dimension,
          cfg_num_vectors :=
            (((chunks.map SChunk.text).map encode).map normalize_L2).length } := by
      cases hsave
      rfl
    subst hdir
    simp [FAISSStore.load, FAISSStore.ntotal]

/-- C4 witness: building from one chunk, saving, and loading into a fresh
store, with trivial embedding and index models. -/
theorem build_load_count_invariant_witness :
    (([⟨[], ()⟩] : List (SChunk Unit)) ≠ []) ∧
    (((mkFAISSStore "all-MiniLM-L6-v2" 384 : FAISSStore Unit Unit).build_index
        (fun _ => ()) id [⟨[], ()⟩]).ntotal =
      ((mkFAISSStore "all-MiniLM-L6-v2" 384 : FAISSStore Unit Unit).build_index
        (fun _ => ()) id [⟨[], ()⟩]).metadata.length ∧
      ((mkFAISSStore "all-MiniLM-L6-v2" 384 : FAISSStore Unit Unit).build_index
        (fun _ => ()) id [⟨[], ()⟩]).metadata.length =
        ([⟨[], ()⟩] : List (SChunk Unit)).length) ∧
    (((mkFAISSStore "all-MiniLM-L6-v2" 384 : FAISSStore Unit Unit).build_index
        (fun _ => ()) id [⟨[], ()⟩]).save =
      .ok { faissFile := [()], metaFile := [()],
            cfg_model_name := "all-MiniLM-L6-v2", cfg_dimension := 384,
            cfg_num_vectors := 1 }) ∧
    (((mkFAISSStore "x" 7 : FAISSStore Unit Unit).load
        { faissFile := [()], metaFile := [()],
          cfg_model_name := "all-MiniLM-L6-v2", cfg_dimension := 384,
          cfg_num_vectors := 1 }).ntotal =
      ((mkFAISSStore "x" 7 : FAISSStore Unit Unit).load
        { faissFile := [()], metaFile := [()],
          cfg_model_name := "all-MiniLM-L6-v2", cfg_dimension := 384,
          cfg_num_vectors := 1 }).metadata.length ∧
      ((mkFAISSStore "x" 7 : FAISSStore Unit Unit).load
        { faissFile := [()], metaFile := [()],
          cfg_model_name := "all-MiniLM-L6-v2", cfg_dimension := 384,
          cfg_num_vectors := 1 }).metadata.length = [()].length) :=
  ⟨by simp,
   build_load_count_invariant.1 Unit Unit (fun _ => ()) id
     (mkFAISSStore "all-MiniLM-L6-v2" 384) [⟨[], ()⟩] (by simp),
   rfl,
   build_load_count_invariant.2 Unit Unit (fun _ => ()) id
     (mkFAISSStore "all-MiniLM-L6-v2" 384) (mkFAISSStore "x" 7) [⟨[], ()⟩]
     { faissFile := [()], metaFile := [()],
       cfg_model_name := "all-MiniLM-L6-v2", cfg_dimension := 384,
       cfg_num_vectors := 1 } (by simp) rfl⟩

/-- C5.  Calling `search` on a `Retriever` without an explicit load:
(1) when no store is loaded and no index config exists at the configured
path, `search` fails with exactly the missing-index error that an explicit
`load_index` would raise; (2) when no store is loaded and a valid index
directory exists (FAISS's contract: every returned slot is `-1` or a valid
position in the metadata list), `search` loads it and succeeds, leaving the
loaded store in the returned state; (3) when a store is already loaded,
`search` never touches the filesystem: its result is independent of the
directory contents, so the lazy load happens only once. -/
theorem retriever_lazy_load :
    ∀ (V M : Type) (encode : List Char → V) (normalize_L2 : V → V)
      (faiss_search : List V → V → Int → List (ℚ × Int))
      (mn : String) (dim : Nat) (q : List Char) (k : Int),
      (∀ r : Retriever V M, r.store = none →
        Retriever.search encode normalize_L2 faiss_search mn dim r none q k =
          .error (.fileNotFound r.index_path) ∧
        Retriever.load_index mn dim r none =
          .error (.fileNotFound r.index_path)) ∧
      (∀ (r : Retriever V M) (dir : IndexDir V M), r.store = none →
        (∀ p ∈ faiss_search dir.faissFile (normalize_L2 (encode q)) k,
          p.2 = -1 ∨ (0 ≤ p.2 ∧ p.2 < (dir.metaFile.length : Int))) →
        ∃ out,
          Retriever.search encode normalize_L2 faiss_search mn dim r
            (some dir) q k =
            .ok (out, { r with store := some (load_index mn dim dir) })) ∧
      (∀ (r : Retriever V M) (s : FAISSStore V M)
        (env env' : Option (IndexDir V M)), r.store = some s →
        Retriever.search encode normalize_L2 faiss_search mn dim r env q k =
          Retriever.search encode normalize_L2 faiss_search mn dim r env' q k) := by
  intro V M encode normalize_L2 faiss_search mn dim q k
  refine ⟨?_, ?_, ?_⟩
  · rintro ⟨path, st⟩ hst
    cases hst
    exact ⟨rfl, rfl⟩
  · rintro ⟨path, st⟩ dir hst hrange
    cases hst
    obtain ⟨out, hout⟩ := collectResults_ok dir.metaFile
      (faiss_search dir.faissFile (normalize_L2 (encode q)) k) hrange
    refine ⟨out, ?_⟩
    simp only [Retriever.search, FAISSStore.search, load_index, mkFAISSStore,
      FAISSStore.load, hout]
    rfl
  · rintro ⟨path, st⟩ s env env' hst
    cases hst
    rfl

/-- C5 witness: a retriever with no loaded store against a missing index
(conjunct 1), and against a present, empty index directory whose search
returns no hits (conjunct 2). -/
theorem retriever_lazy_load_witness :
    ((⟨"data/index", none⟩ : Retriever Unit Unit).store = none ∧
      Retriever.search (fun _ => ()) id (fun _ _ _ => []) "all-MiniLM-L6-v2" 384
        (⟨"data/index", none⟩ : Retriever Unit Unit) none ['q'] 5 =
        .error (.fileNotFound "data/index") ∧
      Retriever.load_index "all-MiniLM-L6-v2" 384
        (⟨"data/index", none⟩ : Retriever Unit Unit) none =
        .error (.fileNotFound "data/index")) ∧
    (∃ out,
      Retriever.search (fun _ => ()) id (fun _ _ _ => []) "all-MiniLM-L6-v2" 384
        (⟨"data/index", none⟩ : Retriever Unit Unit)
        (some { faissFile := [], metaFile := [],
                cfg_model_name := "all-MiniLM-L6-v2", cfg_dimension := 384,
                cfg_num_vectors := 0 }) ['q'] 5 =
        .ok (out, { (⟨"data/index", none⟩ : Retriever Unit Unit) with
                    store := some (load_index "all-MiniLM-L6-v2" 384
                      { faissFile := [], metaFile := [],
                        cfg_model_name := "all-MiniLM-L6-v2",
                        cfg_dimension := 384, cfg_num_vectors := 0 }) })) :=
  ⟨⟨rfl,
    (retriever_lazy_load Unit Unit (fun _ => ()) id (fun _ _ _ => [])
      "all-MiniLM-L6-v2" 384 ['q'] 5).1 ⟨"data/index", none⟩ rfl⟩,
   (retriever_lazy_load Unit Unit (fun _ => ()) id (fun _ _ _ => [])
      "all-MiniLM-L6-v2" 384 ['q'] 5).2.1 ⟨"data/index", none⟩
     { faissFile := [], metaFile := [],
       cfg_model_name := "all-MiniLM-L6-v2", cfg_dimension := 384,
       cfg_num_vectors := 0 } rfl (by simp)⟩

/-! ## `chunk_papers_from_metadata` (also `ragvix/index/chunker.py`)

A paper metadata dictionary: `paper.get(key)` / `paper.get(key, default)`
is modelled by `Option` fields read with `Option.getD`.  The guard
`if not paper.get("abstract")` skips a paper whose `abstract` key is
missing *or* whose abstract is the empty (falsy) string.  A whole
(untruncated) abstract becomes a single chunk whose metadata additionally
carries the paper's author list, category list and publication date. -/

structure Paper where
  arxiv_id : Option String
  title : Option String
  abstract : Option (List Char)
  authors : Option (List String)
  categories : Option (List String)
  published : Option String
deriving DecidableEq, Repr

def paperChunks (p : Paper) (chunk_abstracts : Bool) (cs ov : Int) :
    List Chunk :=
  match p.abstract with
  | none => []
  | some a =>
    if a.isEmpty then []
    else if chunk_abstracts ∧ cs < (a.length : Int) then
      chunk_text a cs ov (p.arxiv_id.getD "") (p.title.getD "") "abstract"
    else
      [ { text := a,
          metadata :=
            { arxiv_id := p.arxiv_id.getD "", title := p.title.getD "",
              sect := "abstract", chunk_index := 0, char_start := 0,
              char_end := a.length, chunk_size := a.length,
              authors := some (p.authors.getD []),
              categories := some (p.categories.getD []),
              published := some (p.published.getD "") } } ]

def chunk_papers_from_metadata (papers_metadata : List Paper)
    (chunk_abstracts : Bool := true) (chunk_size : Int := 1200)
    (overlap : Int := 120) : List Chunk :=
  match papers_metadata with
  | [] => []
  | p :: rest =>
    paperChunks p chunk_abstracts chunk_size overlap ++
      chunk_papers_from_metadata rest chunk_abstracts chunk_size overlap

theorem chunk_papers_append (l1 l2 : List Paper) (ca : Bool) (cs ov : Int) :
    chunk_papers_from_metadata (l1 ++ l2) ca cs ov =
      chunk_papers_from_metadata l1 ca cs ov ++
        chunk_papers_from_metadata l2 ca cs ov := by
  induction l1 with
  | nil => rfl
  | cons p rest ih =>
    simp only [List.cons_append, chunk_papers_from_metadata, List.append_eq,
      ih, List.append_assoc]

/-- C8.  With chunking enabled and `chunk_size = 1200`, a paper whose
abstract has length 500 contributes exactly one chunk to the batch output,
with index 0, offsets `[0, 500)`, section `"abstract"`, and the paper's
authors, categories and published fields copied verbatim; a paper with no
`abstract` field contributes zero chunks. -/
theorem chunk_papers_abstract_packaging :
    (∀ (l1 l2 : List Paper) (p : Paper) (a : List Char),
      p.abstract = some a → a.length = 500 →
      chunk_papers_from_metadata (l1 ++ p :: l2) true 1200 120 =
        chunk_papers_from_metadata l1 true 1200 120 ++
        [ { text := a,
            metadata :=
              { arxiv_id := p.arxiv_id.getD "", title := p.title.getD "",
                sect := "abstract", chunk_index := 0, char_start := 0,
                char_end := 500, chunk_size := 500,
                authors := some (p.authors.getD []),
                categories := some (p.categories.getD []),
                published := some (p.published.getD "") } } ] ++
        chunk_papers_from_metadata l2 true 1200 120) ∧
    (∀ (l1 l2 : List Paper) (q : Paper), q.abstract = none →
      chunk_papers_from_metadata (l1 ++ q :: l2) true 1200 120 =
        chunk_papers_from_metadata l1 true 1200 120 ++
          chunk_papers_from_metadata l2 true 1200 120) := by
  constructor
  · intro l1 l2 p a habs hlen
    rw [chunk_papers_append]
    have hone : paperChunks p true 1200 120 =
        [ { text := a,
            metadata :=
              { arxiv_id := p.arxiv_id.getD "", title := p.title.getD "",
                sect := "abstract", chunk_index := 0, char_start := 0,
                char_end := 500, chunk_size := 500,
                authors := some (p.authors.getD []),
                categories := some (p.categories.getD []),
                published := some (p.published.getD "") } } ] := by
      simp only [paperChunks, habs]
      rw [if_neg (by simp [List.isEmpty_iff, ← List.length_eq_zero, hlen])]
      rw [if_neg (by simp [hlen])]
      rw [hlen]
    simp only [chunk_papers_from_metadata, hone]
    rw [List.append_assoc]
  · intro l1 l2 q habs
    rw [chunk_papers_append]
    have hzero : paperChunks q true 1200 120 = [] := by
      simp [paperChunks, habs]
    simp only [chunk_papers_from_metadata, hzero]
    simp

/-- C8 witness: a concrete paper with a 500-character abstract produces the
single whole-abstract chunk, and an abstract-less paper produces nothing. -/
theorem chunk_papers_abstract_packaging_witness :
    ((⟨some "2106.04102", some "T", some (List.replicate 500 'x'),
        some ["A1", "A2"], some ["cs.CL"], some "2024-01-01"⟩ :
        Paper).abstract = some (List.replicate 500 'x') ∧
      (List.replicate 500 'x').length = 500 ∧
      chunk_papers_from_metadata
        ([] ++ (⟨some "2106.04102", some "T", some (List.replicate 500 'x'),
          some ["A1", "A2"], some ["cs.CL"], some "2024-01-01"⟩ : Paper) :: [])
        true 1200 120 =
        chunk_papers_from_metadata [] true 1200 120 ++
        [ { text := List.replicate 500 'x',
            metadata :=
              { arxiv_id := "2106.04102", title := "T",
                sect := "abstract", chunk_index := 0, char_start := 0,
                char_end := 500, chunk_size := 500,
                authors := some ["A1", "A2"],
                categories := some ["cs.CL"],
                published := some "2024-01-01" } } ] ++
        chunk_papers_from_metadata [] true 1200 120) ∧
    ((⟨none, none, none, none, none, none⟩ : Paper).abstract = none ∧
      chunk_papers_from_metadata
        ([] ++ (⟨none, none, none, none, none, none⟩ : Paper) :: [])
        true 1200 120 =
        chunk_papers_from_metadata [] true 1200 120 ++
          chunk_papers_from_metadata [] true 1200 120) :=
  ⟨⟨rfl, by rw [List.length_replicate],
    chunk_papers_abstract_packaging.1 [] []
      ⟨some "2106.04102", some "T", some (List.replicate 500 'x'),
        some ["A1", "A2"], some ["cs.CL"], some "2024-01-01"⟩
      (List.replicate 500 'x') rfl (by rw [List.length_replicate])⟩,
   ⟨rfl,
    chunk_papers_abstract_packaging.2 [] []
      ⟨none, none, none, none, none, none⟩ rfl⟩⟩

/-! ## `ragvix/ingest/arxiv_client.py`, CLI command `fetch`

`fetch_arxiv_metadata` builds one record per API result with all seven keys
present, so fetched papers are modelled with non-optional fields.  The
command body, after a successful fetch returning `papers` and a successful
`write_jsonl(papers, out)`, logs a category summary (safe on any list) and
then the date range `papers[-1]['published'][:10]` … `papers[0]['published'][:10]`.
On an empty list that indexing raises `IndexError`, which the surrounding
`except` catches: the error is logged and `typer.Exit(1)` terminates the
process with exit status 1, although the file was already written. -/

structure ArxivPaper where
  arxiv_id : String
  title : String
  authors : List String
  abstract : List Char
  categories : List String
  pdf_url : String
  published : List Char
deriving DecidableEq, Repr

structure FetchOutcome where
  written : Option (List ArxivPaper)
  exitCode : Nat
  dateRange : Option (List Char × List Char)
deriving DecidableEq, Repr

def fetch_command (papers : List ArxivPaper) : FetchOutcome :=
  match pyIdx papers (-1), pyIdx papers 0 with
  | some plast, some pfirst =>
    { written := some papers, exitCode := 0,
      dateRange := some (pySlice plast.published 0 10,
        pySlice pfirst.published 0 10) }
  | _, _ =>
    { written := some papers, exitCode := 1, dateRange := none }

/-- C10.  When the metadata fetch returns an empty list, the `fetch`
command writes the (empty) output file but the summary's indexing of the
first and last papers fails, so the command exits with status 1 and logs no
date range; with at least one paper the summary succeeds and the command
exits with status 0. -/
theorem fetch_empty_exits_nonzero :
    ((fetch_command []).exitCode = 1 ∧ (fetch_command []).written = some [] ∧
      (fetch_command []).dateRange = none) ∧
    (∀ papers : List ArxivPaper, papers ≠ [] →
      (fetch_command papers).exitCode = 0 ∧
      (fetch_command papers).written = some papers) := by
  constructor
  · exact ⟨rfl, rfl, rfl⟩
  · intro papers hne
    match papers, hne with
    | p :: rest, _ =>
      have hlast2 : ∃ x, pyIdx (p :: rest) (-1) = some x := by
        have hj : (if (-1 : Int) < 0 then -1 + ((p :: rest).length : Int)
            else -1) = -1 + ((p :: rest).length : Int) := if_pos (by norm_num)
        have h0 : (0 : Int) ≤ -1 + ((p :: rest).length : Int) := by
          simp only [List.length_cons]
          push_cast
          omega
        have hlt : ((-1 : Int) + ((p :: rest).length : Int)).toNat <
            (p :: rest).length := by
          simp only [List.length_cons]
          omega
        simp only [pyIdx, hj]
        rw [if_pos h0, List.get?_eq_get hlt]
        exact ⟨_, rfl⟩
      have hfirst : pyIdx (p :: rest) 0 = some p := by
        simp [pyIdx]
      obtain ⟨x, hx⟩ := hlast2
      simp only [fetch_command, hx, hfirst]
      exact ⟨trivial, trivial⟩

/-! ## `ragvix/utils/io.py`: JSONL writing and reading

`write_jsonl` writes `json.dumps(item, ensure_ascii=False) + "\n"` per
record; `read_jsonl` reads the file line by line, strips each line, skips
blank lines and parses the rest with `json.loads`.

The JSON value model covers null, booleans, (arbitrary-precision) integers,
strings, arrays and objects.  Python floats are excluded: they are binary
floating point, outside this embedding (and `float('nan')` is not even
round-trippable under `==`).  Object member lists model Python dicts, which
preserve insertion order and cannot contain duplicate keys; `json.dumps`
emits members in that order and `json.loads` rebuilds the dict in parse
order.

`dumps` follows `json.dumps` with its default separators `", "` and `": "`
and `ensure_ascii=False`: `"` and `\` are backslash-escaped, the control
characters with short names use them (`\b \t \n \f \r`), all other
characters below U+0020 become `\u00xx` (lowercase hex), and every other
character — ASCII or not — is emitted verbatim.  `loads` is a fuelled
recursive-descent reader of the same grammar restricted to integer
numerals, accepting the `" \t\n\r"` whitespace the Python scanner skips and
requiring the whole input to be consumed. -/

inductive Json where
  | null : Json
  | bool (b : Bool) : Json
  | int (n : Int) : Json
  | str (s : List Char) : Json
  | arr (xs : List Json) : Json
  | obj (kvs : List (List Char × Json)) : Json

def litNull : List Char := ['n', 'u', 'l', 'l']

def litTrue : List Char := ['t', 'r', 'u', 'e']

def litFalse : List Char := ['f', 'a', 'l', 's', 'e']

def digitChar (d : Nat) : Char := Char.ofNat (48 + d)

def hexChar (d : Nat) : Char :=
  Char.ofNat (d + (if d < 10 then 48 else 87))

def natChars (m : Nat) : List Char :=
  if m = 0 then ['0'] else (Nat.digits 10 m).reverse.map digitChar

def intChars (n : Int) : List Char :=
  if n < 0 then '-' :: natChars n.natAbs else natChars n.toNat

def escapeChar (c : Char) : List Char :=
  if c = '"' then ['\\', '"']
  else if c = '\\' then ['\\', '\\']
  else if c = '\n' then ['\\', 'n']
  else if c = '\t' then ['\\', 't']
  else if c = '\x0d' then ['\\', 'r']
  else if c = '\x08' then ['\\', 'b']
  else if c = '\x0c' then ['\\', 'f']
  else if c.toNat < 32 then
    '\\' :: 'u' :: '0' :: '0' :: hexChar (c.toNat / 16) :: [hexChar (c.toNat % 16)]
  else [c]

def escString (s : List Char) : List Char := (s.map escapeChar).flatten

def sepList (sep : List Char) : List (List Char) → List Char
  | [] => []
  | [x] => x
  | x :: xs => x ++ sep ++ sepList sep xs

mutual

def dumps : Json → List Char
  | .null => litNull
  | .bool true => litTrue
  | .bool false => litFalse
  | .int n => intChars n
  | .str s => '"' :: escString s ++ ['"']
  | .arr xs => '[' :: sepList [',', ' '] (dumpsList xs) ++ [']']
  | .obj kvs => '{' :: sepList [',', ' '] (dumpsMembers kvs) ++ ['}']

def dumpsList : List Json → List (List Char)
  | [] => []
  | x :: xs => dumps x :: dumpsList xs

def dumpsMembers : List (List Char × Json) → List (List Char)
  | [] => []
  | (key, jv) :: rest =>
    ('"' :: escString key ++ ['"', ':', ' '] ++ dumps jv) :: dumpsMembers rest

end

def isWsJ (c : Char) : Bool :=
  c = ' ' || c = '\t' || c = '\n' || c = '\x0d'

def skipWs (s : List Char) : List Char := s.dropWhile isWsJ

def isDigitC (c : Char) : Bool := 48 ≤ c.toNat && c.toNat ≤ 57

def digitsToNat (ds : List Char) : Nat :=
  ds.foldl (fun a c => 10 * a + (c.toNat - 48)) 0

def hexVal (c : Char) : Option Nat :=
  let n := c.toNat
  if 48 ≤ n ∧ n ≤ 57 then some (n - 48)
  else if 97 ≤ n ∧ n ≤ 102 then some (n - 87)
  else if 65 ≤ n ∧ n ≤ 70 then some (n - 55)
  else none

def escVal (e : Char) : Option Char :=
  if e = '"' then some '"'
  else if e = '\\' then some '\\'
  else if e = '/' then some '/'
  else if e = 'b' then some '\x08'
  else if e = 'f' then some '\x0c'
  else if e = 'n' then some '\n'
  else if e = 'r' then some '\x0d'
  else if e = 't' then some '\t'
  else none

def parseStrBody : List Char → Option (List Char × List Char)
  | [] => none
  | c :: r =>
    if c = '"' then some ([], r)
    else if c = '\\' then
      match r with
      | [] => none
      | e :: r2 =>
        if e = 'u' then
          match r2 with
          | h1 :: h2 :: h3 :: h4 :: r3 =>
            match hexVal h1, hexVal h2, hexVal h3, hexVal h4 with
            | some a, some b, some c1, some d =>
              (parseStrBody r3).map
                (fun p => (Char.ofNat (((a * 16 + b) * 16 + c1) * 16 + d) :: p.1, p.2))
            | _, _, _, _ => none
          | _ => none
        else
          match escVal e with
          | some c2 => (parseStrBody r2).map (fun p => (c2 :: p.1, p.2))
          | none => none
    else (parseStrBody r).map (fun p => (c :: p.1, p.2))

mutual

def parseVal : Nat → List Char → Option (Json × List Char)
  | 0, _ => none
  | fuel + 1, s =>
    if s.take 4 = litNull then some (.null, s.drop 4)
    else if s.take 4 = litTrue then some (.bool true, s.drop 4)
    else if s.take 5 = litFalse then some (.bool false, s.drop 5)
    else
      match s with
      | [] => none
      | c :: r =>
        if c = '"' then
          match parseStrBody r with
          | some (cs, r2) => some (.str cs, r2)
          | none => none
        else if c = '[' then
          match parseArrItems fuel (skipWs r) with
          | some (xs, r2) => some (.arr xs, r2)
          | none => none
        else if c = '{' then
          match parseObjItems fuel (skipWs r) with
          | some (kvs, r2) => some (.obj kvs, r2)
          | none => none
        else if c = '-' then
          if (r.takeWhile isDigitC).isEmpty then none
          else some (.int (-(digitsToNat (r.takeWhile isDigitC) : Int)),
            r.dropWhile isDigitC)
        else if isDigitC c then
          some (.int (digitsToNat ((c :: r).takeWhile isDigitC)),
            (c :: r).dropWhile isDigitC)
        else none

def parseArrItems : Nat → List Char → Option (List Json × List Char)
  | 0, _ => none
  | fuel + 1, s =>
    if s.head? = some ']' then some ([], s.tail)
    else
      match parseVal fuel s with
      | some (v, r1) =>
        match skipWs r1 with
        | ',' :: r2 =>
          (parseArrItems fuel (skipWs r2)).map (fun q => (v :: q.1, q.2))
        | ']' :: r2 => some ([v], r2)
        | _ => none
      | none => none

def parseObjItems : Nat → List Char →
    Option (List (List Char × Json) × List Char)
  | 0, _ => none
  | fuel + 1, s =>
    if s.head? = some '}' then some ([], s.tail)
    else
      match s with
      | '"' :: r1 =>
        match parseStrBody r1 with
        | some (key, r2) =>
          match skipWs r2 with
          | ':' :: r3 =>
            match parseVal fuel (skipWs r3) with
            | some (v, r4) =>
              match skipWs r4 with
              | ',' :: r5 =>
                (parseObjItems fuel (skipWs r5)).map
                  (fun q => ((key, v) :: q.1, q.2))
              | '}' :: r5 => some ([(key, v)], r5)
              | _ => none
            | none => none
          | _ => none
        | none => none
      | _ => none

end

def loads (s : List Char) : Option Json :=
  match parseVal (s.length + 1) (skipWs s) with
  | some (v, r) => if (skipWs r).isEmpty then some v else none
  | none => none

def write_jsonl (data : List Json) : List Char :=
  (data.map (fun item => dumps item ++ ['\n'])).flatten

def splitNl : List Char → List (List Char)
  | [] => [[]]
  | c :: r =>
    if c = '\n' then [] :: splitNl r
    else
      match splitNl r with
      | [] => [[c]]
      | l :: ls => (c :: l) :: ls

def read_jsonl (content : List Char) : Option (List Json) :=
  (((splitNl content).map pyStrip).filter (fun l => !l.isEmpty)).mapM loads

/-! Character-class helpers for the JSONL round trip. -/

theorem digitChar_spec : ∀ d, d < 10 →
    isDigitC (digitChar d) = true ∧ (digitChar d).toNat = 48 + d := by decide

theorem hexVal_hexChar : ∀ d, d < 16 →
    hexVal (hexChar d) = some d := by decide

theorem isDigitC_spec (c : Char) (h : isDigitC c = true) :
    48 ≤ c.toNat ∧ c.toNat ≤ 57 := by
  simp only [isDigitC, Bool.and_eq_true, decide_eq_true_eq] at h
  exact h

theorem digit_head_facts (c : Char) (h : isDigitC c = true) :
    isWsJ c = false ∧ isPySpace c = false ∧
    ∀ d ∈ (['n', 't', 'f', '"', '[', '{', '-', ']', '}', ',', '\n'] :
      List Char), c ≠ d := by
  obtain ⟨h1, h2⟩ := isDigitC_spec c h
  refine ⟨?_, ?_, ?_⟩
  · cases hw : isWsJ c with
    | false => rfl
    | true =>
      simp only [isWsJ, Bool.or_eq_true, decide_eq_true_eq] at hw
      rcases hw with ((rfl | rfl) | rfl) | rfl <;> revert h <;> decide
  · cases hw : isPySpace c with
    | false => rfl
    | true =>
      simp only [isPySpace, Bool.or_eq_true, decide_eq_true_eq] at hw
      rcases hw with ((((rfl | rfl) | rfl) | rfl) | rfl) | rfl <;> revert h <;> decide
  · intro d hd he
    subst he
    fin_cases hd <;> revert h <;> decide

theorem natChars_ne_nil (m : Nat) : natChars m ≠ [] := by
  by_cases h : m = 0
  · subst h; decide
  · simp only [natChars, h, if_false]
    intro hc
    have := (@Nat.digits_ne_nil_iff_ne_zero 10 m).mpr h
    simp only [List.map_eq_nil_iff, List.reverse_eq_nil_iff] at hc
    exact this hc

theorem natChars_digits (m : Nat) : ∀ c ∈ natChars m, isDigitC c = true := by
  by_cases h : m = 0
  · subst h; decide
  · simp only [natChars, h, if_false]
    intro c hc
    simp only [List.mem_map, List.mem_reverse] at hc
    obtain ⟨d, hd, rfl⟩ := hc
    have hlt : d < 10 := Nat.digits_lt_base (by norm_num) hd
    exact (digitChar_spec d hlt).1

theorem digitsToNat_natChars (m : Nat) : digitsToNat (natChars m) = m := by
  by_cases h : m = 0
  · subst h; decide
  · simp only [natChars, h, if_false, digitsToNat]
    rw [List.foldl_map, List.foldl_reverse]
    have hfold : ∀ L : List Nat, (∀ d ∈ L, d < 10) →
        L.foldr (fun x a => 10 * a + ((digitChar x).toNat - 48)) 0 =
          Nat.ofDigits 10 L := by
      intro L
      induction L with
      | nil => intro _; rfl
      | cons d t iht =>
        intro hall
        have hd : d < 10 := hall d (List.mem_cons_self _ _)
        simp only [List.foldr_cons, Nat.ofDigits_cons,
          iht (fun x hx => hall x (List.mem_cons_of_mem _ hx))]
        have := (digitChar_spec d hd).2
        omega
    rw [hfold (Nat.digits 10 m) (fun d hd => Nat.digits_lt_base (by norm_num) hd)]
    exact_mod_cast Nat.ofDigits_digits 10 m

theorem takeWhile_dropWhile_append {α : Type} (p : α → Bool) (l r : List α)
    (hall : ∀ a ∈ l, p a = true)
    (hr : ∀ c, r.head? = some c → p c = false) :
    (l ++ r).takeWhile p = l ∧ (l ++ r).dropWhile p = r := by
  induction l with
  | nil =>
    simp only [List.nil_append]
    cases r with
    | nil => exact ⟨rfl, rfl⟩
    | cons c t =>
      have := hr c rfl
      constructor
      · simp [List.takeWhile_cons, this]
      · simp [List.dropWhile_cons, this]
  | cons a l' ih =>
    have ha := hall a (List.mem_cons_self _ _)
    obtain ⟨iht, ihd⟩ := ih (fun x hx => hall x (List.mem_cons_of_mem _ hx))
    constructor
    · simp [List.takeWhile_cons, ha, iht]
    · simp [List.dropWhile_cons, ha, ihd]

theorem take_append_of_len {α : Type} (l r : List α) (n : Nat)
    (h : l.length = n) : (l ++ r).take n = l := by
  subst h
  simp

theorem drop_append_of_len {α : Type} (l r : List α) (n : Nat)
    (h : l.length = n) : (l ++ r).drop n = r := by
  subst h
  simp

theorem take_cons_ne {α : Type} (c : α) (t : List α) (d : α) (ds : List α)
    (n : Nat) (h : c ≠ d) : (c :: t).take (n + 1) ≠ d :: ds := by
  simp only [List.take_succ_cons]
  intro he
  exact h (List.cons.inj he).1

theorem skipWs_cons_of_not_ws (c : Char) (t : List Char)
    (h : isWsJ c = false) : skipWs (c :: t) = c :: t := by
  simp [skipWs, List.dropWhile_cons, h]

theorem skipWs_space (t : List Char) : skipWs (' ' :: t) = skipWs t := by
  simp only [skipWs, List.dropWhile_cons]
  rw [if_pos (by decide)]

theorem sepList_pair (sep a b : List Char) (t : List (List Char)) :
    sepList sep (a :: b :: t) = a ++ (sep ++ sepList sep (b :: t)) := by
  simp [sepList, List.append_assoc]

theorem headCharFacts :
    ∀ c ∈ (['n', 't', 'f', '"', '[', '-'] : List Char).concat '\x7b',
      isWsJ c = false ∧ isPySpace c = false ∧ c ≠ ']' ∧ c ≠ '}' := by
  decide

/-- First character of a serialised value: never whitespace and never one
of the closing delimiters. -/
theorem dumps_head (x : Json) :
    ∃ c t, dumps x = c :: t ∧ isWsJ c = false ∧ isPySpace c = false ∧
      c ≠ ']' ∧ c ≠ '}' := by
  cases x with
  | null => exact ⟨'n', _, rfl, headCharFacts 'n' (by decide)⟩
  | bool b =>
    cases b with
    | true => exact ⟨'t', _, rfl, headCharFacts 't' (by decide)⟩
    | false => exact ⟨'f', _, rfl, headCharFacts 'f' (by decide)⟩
  | int n =>
    by_cases hneg : n < 0
    · refine ⟨'-', natChars n.natAbs, ?_, headCharFacts '-' (by decide)⟩
      simp [dumps, intChars, hneg]
    · obtain ⟨c, t, hct⟩ := List.exists_cons_of_ne_nil (natChars_ne_nil n.toNat)
      have hd : isDigitC c = true := by
        apply natChars_digits n.toNat
        rw [hct]
        exact List.mem_cons_self _ _
      obtain ⟨hw, hp, hne⟩ := digit_head_facts c hd
      refine ⟨c, t, ?_, hw, hp, hne ']' (by decide), hne '}' (by decide)⟩
      simp [dumps, intChars, hneg, hct]
  | str s => exact ⟨'"', _, rfl, headCharFacts '"' (by decide)⟩
  | arr xs => exact ⟨'[', _, rfl, headCharFacts '[' (by decide)⟩
  | obj kvs => exact ⟨'{', _, rfl, headCharFacts '{' (by decide)⟩

theorem dumps_ne_nil (x : Json) : dumps x ≠ [] := by
  obtain ⟨c, t, hct, _⟩ := dumps_head x
  simp [hct]

theorem skipWs_dumps_append (x : Json) (r : List Char) :
    skipWs (dumps x ++ r) = dumps x ++ r := by
  obtain ⟨c, t, hct, hw, _⟩ := dumps_head x
  rw [hct]
  exact skipWs_cons_of_not_ws c (t ++ r) hw

/-- C10 witness: the non-empty branch at a one-element list. -/
theorem fetch_empty_exits_nonzero_witness :
    ([⟨"1", "t", [], [], [], "u", []⟩] : List ArxivPaper) ≠ [] ∧
    (fetch_command [⟨"1", "t", [], [], [], "u", []⟩]).exitCode = 0 ∧
    (fetch_command [⟨"1", "t", [], [], [], "u", []⟩]).written =
      some [⟨"1", "t", [], [], [], "u", []⟩] :=
  ⟨by simp,
   (fetch_empty_exits_nonzero.2 [⟨"1", "t", [], [], [], "u", []⟩] (by simp)).1,
   (fetch_empty_exits_nonzero.2 [⟨"1", "t", [], [], [], "u", []⟩] (by simp)).2⟩

end RAGvix

namespace RAGvix

theorem charOfNat_toNat (c : Char) (h : c.toNat < 32) : Char.ofNat c.toNat = c := by
  have hv : c.toNat.isValidChar := Or.inl (by omega)
  simp only [Char.ofNat, hv, dif_pos]
  apply Char.ext
  simp [Char.ofNatAux, Char.toNat]
  apply UInt32.ext
  rfl

theorem parseStrBody_escape (k r : List Char) :
    parseStrBody (escString k ++ '"' :: r) = some (k, r) := by
  induction k with
  | nil =>
    show parseStrBody ([] ++ '"' :: r) = some ([], r)
    rw [List.nil_append, parseStrBody.eq_def]
    simp
  | cons c t ih =>
    have hesc : escString (c :: t) ++ '"' :: r =
        escapeChar c ++ (escString t ++ '"' :: r) := by
      simp [escString, List.append_assoc]
    rw [hesc]
    by_cases h1 : c = '"'
    · subst h1
      rw [show escapeChar '"' = ['\\', '"'] from rfl, List.cons_append,
        List.cons_append, List.nil_append, parseStrBody.eq_def]
      simp [escVal, ih]
    · by_cases h2 : c = '\\'
      · subst h2
        rw [show escapeChar '\\' = ['\\', '\\'] from rfl, List.cons_append,
          List.cons_append, List.nil_append, parseStrBody.eq_def]
        simp [escVal, ih]
      · by_cases h3 : c = '\n'
        · subst h3
          rw [show escapeChar '\n' = ['\\', 'n'] from rfl, List.cons_append,
            List.cons_append, List.nil_append, parseStrBody.eq_def]
          simp [escVal, ih]
        · by_cases h4 : c = '\t'
          · subst h4
            rw [show escapeChar '\t' = ['\\', 't'] from rfl, List.cons_append,
              List.cons_append, List.nil_append, parseStrBody.eq_def]
            simp [escVal, ih]
          · by_cases h5 : c = '\x0d'
            · subst h5
              rw [show escapeChar '\x0d' = ['\\', 'r'] from rfl, List.cons_append,
                List.cons_append, List.nil_append, parseStrBody.eq_def]
              simp [escVal, ih]
            · by_cases h6 : c = '\x08'
              · subst h6
                rw [show escapeChar '\x08' = ['\\', 'b'] from rfl, List.cons_append,
                  List.cons_append, List.nil_append, parseStrBody.eq_def]
                simp [escVal, ih]
              · by_cases h7 : c = '\x0c'
                · subst h7
                  rw [show escapeChar '\x0c' = ['\\', 'f'] from rfl, List.cons_append,
                    List.cons_append, List.nil_append, parseStrBody.eq_def]
                  simp [escVal, ih]
                · by_cases h8 : c.toNat < 32
                  · rw [show escapeChar c =
                        ['\\', 'u', '0', '0', hexChar (c.toNat / 16),
                          hexChar (c.toNat % 16)] from by
                      simp only [escapeChar, if_neg h1, if_neg h2, if_neg h3,
                        if_neg h4, if_neg h5, if_neg h6, if_neg h7, if_pos h8]]
                    have hhi : c.toNat / 16 < 16 := by omega
                    have hlo : c.toNat % 16 < 16 := by omega
                    rw [List.cons_append, List.cons_append, List.cons_append,
                      List.cons_append, List.cons_append, List.cons_append,
                      List.nil_append, parseStrBody.eq_def]
                    simp only [reduceIte, reduceCtorEq]
                    rw [show hexVal '0' = some 0 from rfl,
                      hexVal_hexChar _ hhi, hexVal_hexChar _ hlo]
                    simp only [ih, Option.map_some']
                    have hval : ((0 * 16 + 0) * 16 + c.toNat / 16) * 16 +
                        c.toNat % 16 = c.toNat := by omega
                    rw [hval, charOfNat_toNat c h8, if_neg (by decide)]
                  · rw [show escapeChar c = [c] from by
                      simp only [escapeChar, if_neg h1, if_neg h2, if_neg h3,
                        if_neg h4, if_neg h5, if_neg h6, if_neg h7, if_neg h8]]
                    rw [List.singleton_append, parseStrBody.eq_def]
                    simp only [if_neg h1, if_neg h2, ih, Option.map_some']

end RAGvix

namespace RAGvix

theorem dumps_arr_eq (xs : List Json) :
    dumps (.arr xs) = '[' :: sepList [',', ' '] (dumpsList xs) ++ [']'] := by
  simp [dumps]

theorem dumps_obj_eq (kvs : List (List Char × Json)) :
    dumps (.obj kvs) = '{' :: sepList [',', ' '] (dumpsMembers kvs) ++ ['}'] := by
  simp [dumps]

theorem skipWs_sepDumpsList (xs : List Json) (cl : Char) (r : List Char)
    (hcl : isWsJ cl = false) :
    skipWs (sepList [',', ' '] (dumpsList xs) ++ cl :: r) =
      sepList [',', ' '] (dumpsList xs) ++ cl :: r := by
  cases xs with
  | nil => exact skipWs_cons_of_not_ws cl r hcl
  | cons x1 rest =>
    have hsep : ∃ u, sepList [',', ' '] (dumpsList (x1 :: rest)) =
        dumps x1 ++ u := by
      cases rest with
      | nil => exact ⟨[], by simp [dumpsList, sepList]⟩
      | cons b t2 =>
        exact ⟨[',', ' '] ++ sepList [',', ' '] (dumpsList (b :: t2)),
          by simp [dumpsList, sepList_pair]⟩
    obtain ⟨u, hu⟩ := hsep
    rw [hu, List.append_assoc]
    obtain ⟨c, t, hct, hw, -, -, -⟩ := dumps_head x1
    rw [hct, List.cons_append]
    exact skipWs_cons_of_not_ws _ _ hw

theorem skipWs_sepDumpsMembers (kvs : List (List Char × Json)) (cl : Char)
    (r : List Char) (hcl : isWsJ cl = false) :
    skipWs (sepList [',', ' '] (dumpsMembers kvs) ++ cl :: r) =
      sepList [',', ' '] (dumpsMembers kvs) ++ cl :: r := by
  cases kvs with
  | nil => exact skipWs_cons_of_not_ws cl r hcl
  | cons kv rest =>
    obtain ⟨k, v⟩ := kv
    have hsep : ∃ u, sepList [',', ' '] (dumpsMembers ((k, v) :: rest)) =
        ('"' :: escString k ++ ['"', ':', ' '] ++ dumps v) ++ u := by
      cases rest with
      | nil => exact ⟨[], by simp [dumpsMembers, sepList]⟩
      | cons b t2 =>
        exact ⟨[',', ' '] ++ sepList [',', ' '] (dumpsMembers (b :: t2)),
          by simp [dumpsMembers, sepList_pair]⟩
    obtain ⟨u, hu⟩ := hsep
    rw [hu]
    rw [show (('"' :: escString k ++ ['"', ':', ' '] ++ dumps v) ++ u) ++
        cl :: r = '"' :: ((escString k ++ ['"', ':', ' '] ++ dumps v ++ u) ++
        cl :: r) from by simp [List.append_assoc]]
    exact skipWs_cons_of_not_ws _ _ (by decide)

theorem parse_dumps (fuel : Nat) :
    (∀ (x : Json) (r : List Char), (dumps x).length ≤ fuel →
      (∀ c, r.head? = some c → isDigitC c = false) →
      parseVal fuel (dumps x ++ r) = some (x, r)) ∧
    (∀ (xs : List Json) (r : List Char),
      (sepList [',', ' '] (dumpsList xs)).length + 1 ≤ fuel →
      parseArrItems fuel (sepList [',', ' '] (dumpsList xs) ++ ']' :: r) =
        some (xs, r)) ∧
    (∀ (kvs : List (List Char × Json)) (r : List Char),
      (sepList [',', ' '] (dumpsMembers kvs)).length + 1 ≤ fuel →
      parseObjItems fuel (sepList [',', ' '] (dumpsMembers kvs) ++ '}' :: r) =
        some (kvs, r)) := by
  induction fuel using Nat.strong_induction_on with
  | _ fuel ih =>
    refine ⟨?_, ?_, ?_⟩
    · intro x r hlen hbound
      have hpos : 1 ≤ (dumps x).length :=
        List.length_pos.mpr (dumps_ne_nil x)
      obtain ⟨f, rfl⟩ : ∃ f, fuel = f + 1 := ⟨fuel - 1, by omega⟩
      cases x with
      | null =>
        rw [show dumps Json.null = ['n', 'u', 'l', 'l'] from by
          simp [dumps, litNull]]
        simp only [parseVal]
        rw [take_append_of_len (['n', 'u', 'l', 'l'] : List Char) r 4 rfl,
          drop_append_of_len (['n', 'u', 'l', 'l'] : List Char) r 4 rfl]
        simp [litNull]
      | bool b =>
        cases b with
        | true =>
          rw [show dumps (Json.bool true) = ['t', 'r', 'u', 'e'] from by
            simp [dumps, litTrue]]
          simp only [parseVal]
          rw [take_append_of_len (['t', 'r', 'u', 'e'] : List Char) r 4 rfl,
            drop_append_of_len (['t', 'r', 'u', 'e'] : List Char) r 4 rfl]
          simp [litNull, litTrue]
        | false =>
          rw [show dumps (Json.bool false) = ['f', 'a', 'l', 's', 'e'] from by
            simp [dumps, litFalse]]
          have h4 : ((['f', 'a', 'l', 's', 'e'] : List Char) ++ r).take 4 =
              ['f', 'a', 'l', 's'] := by
            rw [show (['f', 'a', 'l', 's', 'e'] : List Char) ++ r =
              ['f', 'a', 'l', 's'] ++ 'e' :: r from rfl]
            exact take_append_of_len _ _ 4 rfl
          simp only [parseVal]
          rw [h4, take_append_of_len (['f', 'a', 'l', 's', 'e'] : List Char) r 5 rfl,
            drop_append_of_len (['f', 'a', 'l', 's', 'e'] : List Char) r 5 rfl]
          simp [litNull, litTrue, litFalse]
      | int n =>
        by_cases hneg : n < 0
        · rw [show dumps (Json.int n) = '-' :: natChars n.natAbs from by
            simp [dumps, intChars, hneg]]
          rw [List.cons_append]
          simp only [parseVal]
          rw [if_neg (by
            rw [show (4 : Nat) = 3 + 1 from rfl]
            exact take_cons_ne _ _ _ _ 3 (by decide))]
          rw [if_neg (by
            rw [show (4 : Nat) = 3 + 1 from rfl]
            exact take_cons_ne _ _ _ _ 3 (by decide))]
          rw [if_neg (by
            rw [show (5 : Nat) = 4 + 1 from rfl]
            exact take_cons_ne _ _ _ _ 4 (by decide))]
          obtain ⟨htw, hdw⟩ := takeWhile_dropWhile_append isDigitC
            (natChars n.natAbs) r (natChars_digits _) hbound
          rw [if_neg (show ¬('-' : Char) = '"' from by decide)]
          rw [if_neg (show ¬('-' : Char) = '[' from by decide)]
          rw [if_neg (show ¬('-' : Char) = '{' from by decide)]
          rw [if_true]
          rw [htw]
          rw [if_neg (by
            simp only [List.isEmpty_iff]
            exact natChars_ne_nil n.natAbs)]
          rw [digitsToNat_natChars, hdw]
          have hn : -((n.natAbs : Nat) : Int) = n := by omega
          rw [hn]
        · rw [show dumps (Json.int n) = natChars n.toNat from by
            simp [dumps, intChars, hneg]]
          obtain ⟨c, t, hct⟩ :=
            List.exists_cons_of_ne_nil (natChars_ne_nil n.toNat)
          have hcd : isDigitC c = true := by
            apply natChars_digits n.toNat
            rw [hct]
            exact List.mem_cons_self _ _
          obtain ⟨hw, hp, hne⟩ := digit_head_facts c hcd
          have hne4 := hne 'n' (by decide)
          have hne5 := hne 't' (by decide)
          have hne6 := hne 'f' (by decide)
          have hne7 := hne '"' (by decide)
          have hne8 := hne '[' (by decide)
          have hne9 := hne '{' (by decide)
          have hne10 := hne '-' (by decide)
          rw [hct, List.cons_append]
          simp only [parseVal]
          rw [if_neg (by
            rw [show (4 : Nat) = 3 + 1 from rfl]
            exact take_cons_ne _ _ _ _ 3 hne4)]
          rw [if_neg (by
            rw [show (4 : Nat) = 3 + 1 from rfl]
            exact take_cons_ne _ _ _ _ 3 hne5)]
          rw [if_neg (by
            rw [show (5 : Nat) = 4 + 1 from rfl]
            exact take_cons_ne _ _ _ _ 4 hne6)]
          have hsplit : c :: (t ++ r) = natChars n.toNat ++ r := by
            rw [hct, List.cons_append]
          obtain ⟨htw, hdw⟩ := takeWhile_dropWhile_append isDigitC
            (natChars n.toNat) r (natChars_digits _) hbound
          rw [if_neg hne7]
          rw [if_neg hne8]
          rw [if_neg hne9]
          rw [if_neg hne10]
          rw [if_pos hcd]
          rw [hsplit, htw, hdw, digitsToNat_natChars]
          have hn : ((n.toNat : Nat) : Int) = n := by omega
          rw [hn]
      | str s =>
        rw [show dumps (Json.str s) = '"' :: escString s ++ ['"'] from by
          simp [dumps]]
        rw [show ('"' :: escString s ++ ['"']) ++ r =
            '"' :: (escString s ++ '"' :: r) from by simp [List.append_assoc]]
        simp only [parseVal]
        rw [if_neg (by
          rw [show (4 : Nat) = 3 + 1 from rfl]
          exact take_cons_ne _ _ _ _ 3 (by decide))]
        rw [if_neg (by
          rw [show (4 : Nat) = 3 + 1 from rfl]
          exact take_cons_ne _ _ _ _ 3 (by decide))]
        rw [if_neg (by
          rw [show (5 : Nat) = 4 + 1 from rfl]
          exact take_cons_ne _ _ _ _ 4 (by decide))]
        rw [if_true, parseStrBody_escape]
      | arr xs =>
        rw [dumps_arr_eq] at hlen
        rw [dumps_arr_eq]
        rw [show ('[' :: sepList [',', ' '] (dumpsList xs) ++ [']']) ++ r =
            '[' :: (sepList [',', ' '] (dumpsList xs) ++ ']' :: r) from by
          simp [List.append_assoc]]
        have hlenB : (sepList [',', ' '] (dumpsList xs)).length + 2 ≤ f + 1 := by
          simpa [List.length_append] using hlen
        simp only [parseVal]
        rw [if_neg (by
          rw [show (4 : Nat) = 3 + 1 from rfl]
          exact take_cons_ne _ _ _ _ 3 (by decide))]
        rw [if_neg (by
          rw [show (4 : Nat) = 3 + 1 from rfl]
          exact take_cons_ne _ _ _ _ 3 (by decide))]
        rw [if_neg (by
          rw [show (5 : Nat) = 4 + 1 from rfl]
          exact take_cons_ne _ _ _ _ 4 (by decide))]
        rw [if_neg (show ¬('[' : Char) = '"' from by decide)]
        rw [if_true]
        have hskip : skipWs (sepList [',', ' '] (dumpsList xs) ++ ']' :: r) =
            sepList [',', ' '] (dumpsList xs) ++ ']' :: r := by
          cases xs with
          | nil => exact skipWs_cons_of_not_ws ']' r (by decide)
          | cons x1 rest =>
            have hsep : ∃ u, sepList [',', ' '] (dumpsList (x1 :: rest)) =
                dumps x1 ++ u := by
              cases rest with
              | nil => exact ⟨[], by simp [dumpsList, sepList]⟩
              | cons b t2 =>
                exact ⟨[',', ' '] ++ sepList [',', ' '] (dumpsList (b :: t2)),
                  by simp [dumpsList, sepList_pair]⟩
            obtain ⟨u, hu⟩ := hsep
            rw [hu, List.append_assoc]
            obtain ⟨c, t, hct, hw, -, -, -⟩ := dumps_head x1
            rw [hct, List.cons_append]
            exact skipWs_cons_of_not_ws _ _ hw
        rw [hskip]
        rw [(ih f (by omega)).2.1 xs r (by omega)]
      | obj kvs =>
        rw [dumps_obj_eq] at hlen
        rw [dumps_obj_eq]
        rw [show ('{' :: sepList [',', ' '] (dumpsMembers kvs) ++ ['}']) ++ r =
            '{' :: (sepList [',', ' '] (dumpsMembers kvs) ++ '}' :: r) from by
          simp [List.append_assoc]]
        have hlenB : (sepList [',', ' '] (dumpsMembers kvs)).length + 2 ≤
            f + 1 := by
          simpa [List.length_append] using hlen
        simp only [parseVal]
        rw [if_neg (by
          rw [show (4 : Nat) = 3 + 1 from rfl]
          exact take_cons_ne _ _ _ _ 3 (by decide))]
        rw [if_neg (by
          rw [show (4 : Nat) = 3 + 1 from rfl]
          exact take_cons_ne _ _ _ _ 3 (by decide))]
        rw [if_neg (by
          rw [show (5 : Nat) = 4 + 1 from rfl]
          exact take_cons_ne _ _ _ _ 4 (by decide))]
        rw [if_neg (show ¬('{' : Char) = '"' from by decide)]
        rw [if_neg (show ¬('{' : Char) = '[' from by decide)]
        rw [if_true]
        have hskip : skipWs (sepList [',', ' '] (dumpsMembers kvs) ++ '}' :: r) =
            sepList [',', ' '] (dumpsMembers kvs) ++ '}' :: r := by
          cases kvs with
          | nil => exact skipWs_cons_of_not_ws '}' r (by decide)
          | cons kv rest =>
            obtain ⟨k, v⟩ := kv
            have hsep : ∃ u, sepList [',', ' '] (dumpsMembers ((k, v) :: rest)) =
                ('"' :: escString k ++ ['"', ':', ' '] ++ dumps v) ++ u := by
              cases rest with
              | nil => exact ⟨[], by simp [dumpsMembers, sepList]⟩
              | cons b t2 =>
                exact ⟨[',', ' '] ++ sepList [',', ' '] (dumpsMembers (b :: t2)),
                  by simp [dumpsMembers, sepList_pair]⟩
            obtain ⟨u, hu⟩ := hsep
            rw [hu]
            rw [show (('"' :: escString k ++ ['"', ':', ' '] ++ dumps v) ++ u) ++
                '}' :: r = '"' :: ((escString k ++ ['"', ':', ' '] ++ dumps v ++ u) ++
                '}' :: r) from by simp [List.append_assoc]]
            exact skipWs_cons_of_not_ws _ _ (by decide)
        rw [hskip]
        rw [(ih f (by omega)).2.2 kvs r (by omega)]
    · intro xs r hlen
      obtain ⟨f, rfl⟩ : ∃ f, fuel = f + 1 := ⟨fuel - 1, by omega⟩
      cases xs with
      | nil =>
        rw [show sepList [',', ' '] (dumpsList ([] : List Json)) = [] from rfl,
          List.nil_append]
        simp only [parseArrItems]
        rw [if_pos (show ((']' :: r : List Char)).head? = some ']' from rfl)]
        rfl
      | cons x1 rest =>
        obtain ⟨c, t, hct, hw, hp, hcne1, hcne2⟩ := dumps_head x1
        have hlen1 : 1 ≤ (dumps x1).length := List.length_pos.mpr (dumps_ne_nil x1)
        cases rest with
        | nil =>
          rw [show sepList [',', ' '] (dumpsList [x1]) = dumps x1 from by
            simp [dumpsList, sepList]]
          rw [show sepList [',', ' '] (dumpsList [x1]) = dumps x1 from by
            simp [dumpsList, sepList]] at hlen
          simp only [parseArrItems]
          rw [if_neg (by
            rw [hct, List.cons_append]
            simp only [List.head?_cons, Option.some.injEq]
            exact hcne1)]
          rw [(ih f (by omega)).1 x1 (']' :: r) (by omega)
            (fun ch hch => by
              simp only [List.head?_cons, Option.some.injEq] at hch
              subst hch
              decide)]
          simp [skipWs_cons_of_not_ws ']' r (by decide)]
        | cons b t2 =>
          have hexp : sepList [',', ' '] (dumpsList (x1 :: b :: t2)) =
              dumps x1 ++ (',' :: ' ' :: sepList [',', ' '] (dumpsList (b :: t2))) := by
            rw [show dumpsList (x1 :: b :: t2) = dumps x1 :: dumpsList (b :: t2)
              from rfl]
            rw [show dumpsList (b :: t2) = dumps b :: dumpsList t2 from rfl]
            rw [sepList_pair]
            rfl
          rw [hexp] at hlen
          rw [hexp]
          have hlens : (dumps x1).length + 2 +
              (sepList [',', ' '] (dumpsList (b :: t2))).length + 1 ≤ f + 1 := by
            simp only [List.length_append, List.length_cons] at hlen
            omega
          rw [List.append_assoc]
          simp only [parseArrItems]
          rw [if_neg (by
            rw [hct, List.cons_append]
            simp only [List.head?_cons, Option.some.injEq]
            exact hcne1)]
          rw [show (',' :: ' ' :: sepList [',', ' '] (dumpsList (b :: t2))) ++
              ']' :: r = ',' :: ' ' :: (sepList [',', ' '] (dumpsList (b :: t2)) ++
              ']' :: r) from by simp]
          rw [(ih f (by omega)).1 x1
            (',' :: ' ' :: (sepList [',', ' '] (dumpsList (b :: t2)) ++ ']' :: r))
            (by omega)
            (fun ch hch => by
              simp only [List.head?_cons, Option.some.injEq] at hch
              subst hch
              decide)]
          have hsk2 : skipWs (' ' :: (sepList [',', ' '] (dumpsList (b :: t2)) ++
              ']' :: r)) = sepList [',', ' '] (dumpsList (b :: t2)) ++ ']' :: r := by
            rw [skipWs_space]
            exact skipWs_sepDumpsList (b :: t2) ']' r (by decide)
          simp only [skipWs_cons_of_not_ws ','
            (' ' :: (sepList [',', ' '] (dumpsList (b :: t2)) ++ ']' :: r))
            (by decide), hsk2, (ih f (by omega)).2.1 (b :: t2) r (by omega),
            Option.map_some']
    · intro kvs r hlen
      obtain ⟨f, rfl⟩ : ∃ f, fuel = f + 1 := ⟨fuel - 1, by omega⟩
      cases kvs with
      | nil =>
        rw [show sepList [',', ' '] (dumpsMembers
          ([] : List (List Char × Json))) = [] from rfl, List.nil_append]
        simp only [parseObjItems]
        rw [if_pos (show (('}' :: r : List Char)).head? = some '}' from rfl)]
        rfl
      | cons kv rest =>
        obtain ⟨k, v⟩ := kv
        have hlenv : 1 ≤ (dumps v).length := List.length_pos.mpr (dumps_ne_nil v)
        cases rest with
        | nil =>
          rw [show sepList [',', ' '] (dumpsMembers [(k, v)]) =
              '"' :: escString k ++ ['"', ':', ' '] ++ dumps v from by
            simp [dumpsMembers, sepList]]
          rw [show sepList [',', ' '] (dumpsMembers [(k, v)]) =
              '"' :: escString k ++ ['"', ':', ' '] ++ dumps v from by
            simp [dumpsMembers, sepList]] at hlen
          have hlens : (escString k).length + 4 + (dumps v).length + 1 ≤
              f + 1 := by
            simp only [List.length_append, List.length_cons, List.cons_append,
              List.length_nil] at hlen
            omega
          rw [show ('"' :: escString k ++ ['"', ':', ' '] ++ dumps v) ++
              '}' :: r = '"' :: (escString k ++ '"' :: ':' :: ' ' ::
              (dumps v ++ '}' :: r)) from by simp [List.append_assoc]]
          simp only [parseObjItems]
          rw [if_neg (by simp)]
          rw [parseStrBody_escape]
          have hsk3 : skipWs (' ' :: (dumps v ++ '}' :: r)) =
              dumps v ++ '}' :: r := by
            rw [skipWs_space]
            exact skipWs_dumps_append v ('}' :: r)
          simp only [skipWs_cons_of_not_ws ':'
            (' ' :: (dumps v ++ '}' :: r)) (by decide), hsk3]
          rw [(ih f (by omega)).1 v ('}' :: r) (by omega)
            (fun ch hch => by
              simp only [List.head?_cons, Option.some.injEq] at hch
              subst hch
              decide)]
          simp [skipWs_cons_of_not_ws '}' r (by decide)]
        | cons b t2 =>
          have hexp : sepList [',', ' '] (dumpsMembers ((k, v) :: b :: t2)) =
              ('"' :: escString k ++ ['"', ':', ' '] ++ dumps v) ++
              (',' :: ' ' :: sepList [',', ' '] (dumpsMembers (b :: t2))) := by
            rw [show dumpsMembers ((k, v) :: b :: t2) =
              ('"' :: escString k ++ ['"', ':', ' '] ++ dumps v) ::
                dumpsMembers (b :: t2) from rfl]
            obtain ⟨m2, rest2, hm2⟩ : ∃ m2 rest2,
                dumpsMembers (b :: t2) = m2 :: rest2 := by
              obtain ⟨k2, v2⟩ := b
              exact ⟨_, _, rfl⟩
            rw [hm2, sepList_pair, ← hm2]
            rfl
          rw [hexp] at hlen
          rw [hexp]
          have hlens : (escString k).length + 4 + (dumps v).length + 2 +
              (sepList [',', ' '] (dumpsMembers (b :: t2))).length + 1 ≤
              f + 1 := by
            simp only [List.length_append, List.length_cons, List.cons_append,
              List.length_nil] at hlen
            omega
          rw [show (('"' :: escString k ++ ['"', ':', ' '] ++ dumps v) ++
              (',' :: ' ' :: sepList [',', ' '] (dumpsMembers (b :: t2)))) ++
              '}' :: r = '"' :: (escString k ++ '"' :: ':' :: ' ' ::
              (dumps v ++ ',' :: ' ' ::
                (sepList [',', ' '] (dumpsMembers (b :: t2)) ++ '}' :: r)))
            from by simp [List.append_assoc]]
          simp only [parseObjItems]
          rw [if_neg (by simp)]
          rw [parseStrBody_escape]
          have hsk3 : skipWs (' ' :: (dumps v ++ ',' :: ' ' ::
              (sepList [',', ' '] (dumpsMembers (b :: t2)) ++ '}' :: r))) =
              dumps v ++ ',' :: ' ' ::
                (sepList [',', ' '] (dumpsMembers (b :: t2)) ++ '}' :: r) := by
            rw [skipWs_space]
            exact skipWs_dumps_append v _
          simp only [skipWs_cons_of_not_ws ':' _ (by decide), hsk3]
          rw [(ih f (by omega)).1 v
            (',' :: ' ' :: (sepList [',', ' '] (dumpsMembers (b :: t2)) ++
              '}' :: r)) (by omega)
            (fun ch hch => by
              simp only [List.head?_cons, Option.some.injEq] at hch
              subst hch
              decide)]
          have hsk4 : skipWs (' ' :: (sepList [',', ' ']
              (dumpsMembers (b :: t2)) ++ '}' :: r)) =
              sepList [',', ' '] (dumpsMembers (b :: t2)) ++ '}' :: r := by
            rw [skipWs_space]
            exact skipWs_sepDumpsMembers (b :: t2) '}' r (by decide)
          simp only [skipWs_cons_of_not_ws ',' _ (by decide), hsk4,
            (ih f (by omega)).2.2 (b :: t2) r (by omega), Option.map_some']

end RAGvix

namespace RAGvix

theorem exists_getLast {l : List Char} (h : l ≠ []) :
    ∃ c, l.getLast? = some c ∧ c ∈ l :=
  ⟨l.getLast h, by rw [List.getLast?_eq_getLast l h], List.getLast_mem h⟩

theorem mem_sepList {sep : List Char} {ls : List (List Char)} {d : Char}
    (hd : d ∈ sepList sep ls) : d ∈ sep ∨ ∃ l ∈ ls, d ∈ l := by
  induction ls with
  | nil => simp [sepList] at hd
  | cons a t iht =>
    cases t with
    | nil =>
      right
      exact ⟨a, List.mem_cons_self _ _, hd⟩
    | cons b t2 =>
      rw [sepList_pair] at hd
      rcases List.mem_append.mp hd with h1 | h1
      · exact Or.inr ⟨a, List.mem_cons_self _ _, h1⟩
      rcases List.mem_append.mp h1 with h2 | h2
      · exact Or.inl h2
      · rcases iht h2 with h3 | ⟨l, hl, hml⟩
        · exact Or.inl h3
        · exact Or.inr ⟨l, List.mem_cons_of_mem _ hl, hml⟩

theorem mem_dumpsList {l : List Char} {xs : List Json}
    (h : l ∈ dumpsList xs) : ∃ y, y ∈ xs ∧ l = dumps y := by
  induction xs with
  | nil => simp [dumpsList] at h
  | cons a t iht =>
    rw [show dumpsList (a :: t) = dumps a :: dumpsList t from rfl] at h
    rcases List.mem_cons.mp h with h1 | h1
    · exact ⟨a, List.mem_cons_self _ _, h1⟩
    · obtain ⟨y, hy, hl⟩ := iht h1
      exact ⟨y, List.mem_cons_of_mem _ hy, hl⟩

theorem mem_dumpsMembers {l : List Char} {kvs : List (List Char × Json)}
    (h : l ∈ dumpsMembers kvs) :
    ∃ kv, kv ∈ kvs ∧
      l = '"' :: escString kv.1 ++ ['"', ':', ' '] ++ dumps kv.2 := by
  induction kvs with
  | nil => simp [dumpsMembers] at h
  | cons a t iht =>
    obtain ⟨k, v⟩ := a
    rw [show dumpsMembers ((k, v) :: t) =
      ('"' :: escString k ++ ['"', ':', ' '] ++ dumps v) :: dumpsMembers t
      from rfl] at h
    rcases List.mem_cons.mp h with h1 | h1
    · exact ⟨(k, v), List.mem_cons_self _ _, h1⟩
    · obtain ⟨kv, hkv, hl⟩ := iht h1
      exact ⟨kv, List.mem_cons_of_mem _ hkv, hl⟩

theorem hexChar_ne_nl : ∀ d, d < 16 → hexChar d ≠ '\n' := by decide

theorem newline_not_mem_escapeChar (c : Char) : '\n' ∉ escapeChar c := by
  simp only [escapeChar]
  split_ifs with h1 h2 h3 h4 h5 h6 h7 h8
  · decide
  · decide
  · decide
  · decide
  · decide
  · decide
  · decide
  · intro hm
    have hhi : c.toNat / 16 < 16 := by omega
    have hlo : c.toNat % 16 < 16 := by omega
    simp only [List.mem_cons, List.not_mem_nil, or_false] at hm
    rcases hm with h | h | h | h | h | h
    · exact absurd h (by decide)
    · exact absurd h (by decide)
    · exact absurd h (by decide)
    · exact absurd h (by decide)
    · exact hexChar_ne_nl _ hhi h.symm
    · exact hexChar_ne_nl _ hlo h.symm
  · intro hm
    exact h3 (List.mem_singleton.mp hm).symm

theorem dumps_no_newline : ∀ (x : Json), '\n' ∉ dumps x
  | .null => by decide
  | .bool true => by decide
  | .bool false => by decide
  | .int n => by
    simp only [dumps, intChars]
    split_ifs with h
    · intro hm
      rcases List.mem_cons.mp hm with h' | h'
      · exact absurd h' (by decide)
      · have := natChars_digits _ _ h'
        exact absurd this (by decide)
    · intro hm
      have := natChars_digits _ _ hm
      exact absurd this (by decide)
  | .str s => by
    simp only [dumps]
    intro hm
    rcases List.mem_cons.mp hm with h' | h'
    · exact absurd h' (by decide)
    rcases List.mem_append.mp h' with h'' | h''
    · simp only [escString, List.mem_flatten] at h''
      obtain ⟨l, hl, hml⟩ := h''
      obtain ⟨c, _, rfl⟩ := List.mem_map.mp hl
      exact newline_not_mem_escapeChar c hml
    · exact absurd (List.mem_singleton.mp h'') (by decide)
  | .arr xs => by
    rw [dumps_arr_eq]
    intro hm
    rcases List.mem_cons.mp hm with h' | h'
    · exact absurd h' (by decide)
    rcases List.mem_append.mp h' with h'' | h''
    · rcases mem_sepList h'' with hsep | ⟨l, hl, hml⟩
      · exact absurd hsep (by decide)
      · obtain ⟨y, hy, rfl⟩ := mem_dumpsList hl
        exact dumps_no_newline y hml
    · exact absurd (List.mem_singleton.mp h'') (by decide)
  | .obj kvs => by
    rw [dumps_obj_eq]
    intro hm
    rcases List.mem_cons.mp hm with h' | h'
    · exact absurd h' (by decide)
    rcases List.mem_append.mp h' with h'' | h''
    · rcases mem_sepList h'' with hsep | ⟨l, hl, hml⟩
      · exact absurd hsep (by decide)
      · obtain ⟨kv, hkv, rfl⟩ := mem_dumpsMembers hl
        rcases List.mem_cons.mp hml with hq | hq
        · exact absurd hq (by decide)
        rcases List.mem_append.mp hq with hq2 | hq2
        · rcases List.mem_append.mp hq2 with hq3 | hq3
          · simp only [escString, List.mem_flatten] at hq3
            obtain ⟨l2, hl2, hml2⟩ := hq3
            obtain ⟨c, _, rfl⟩ := List.mem_map.mp hl2
            exact newline_not_mem_escapeChar c hml2
          · exact absurd hq3 (by decide)
        · exact dumps_no_newline kv.2 hq2
    · exact absurd (List.mem_singleton.mp h'') (by decide)
termination_by x => sizeOf x
decreasing_by
  · have h1 := List.sizeOf_lt_of_mem hy
    simp only [Json.arr.sizeOf_spec]
    omega
  · have h1 := List.sizeOf_lt_of_mem hkv
    obtain ⟨k2, v2⟩ := kv
    simp only [Json.obj.sizeOf_spec, Prod.mk.sizeOf_spec] at h1 ⊢
    omega

theorem dumps_last (x : Json) :
    ∃ c, (dumps x).getLast? = some c ∧ isPySpace c = false := by
  cases x with
  | null => exact ⟨'l', by decide, by decide⟩
  | bool b =>
    cases b with
    | true => exact ⟨'e', by decide, by decide⟩
    | false => exact ⟨'e', by decide, by decide⟩
  | int n =>
    simp only [dumps, intChars]
    split_ifs with h
    · obtain ⟨c, hc, hmem⟩ := exists_getLast (natChars_ne_nil n.natAbs)
      refine ⟨c, ?_, ?_⟩
      · rw [show ('-' :: natChars n.natAbs) = ['-'] ++ natChars n.natAbs
          from rfl]
        rw [List.getLast?_append_of_ne_nil _ (natChars_ne_nil _)]
        exact hc
      · have := natChars_digits _ _ hmem
        exact (digit_head_facts _ this).2.1
    · obtain ⟨c, hc, hmem⟩ := exists_getLast (natChars_ne_nil n.toNat)
      refine ⟨c, hc, ?_⟩
      have := natChars_digits _ _ hmem
      exact (digit_head_facts _ this).2.1
  | str s =>
    refine ⟨'"', ?_, by decide⟩
    simp only [dumps]
    rw [show '"' :: escString s ++ ['"'] = ('"' :: escString s) ++ ['"']
      from by simp]
    exact List.getLast?_concat _
  | arr xs =>
    refine ⟨']', ?_, by decide⟩
    rw [dumps_arr_eq]
    rw [show '[' :: sepList [',', ' '] (dumpsList xs) ++ [']'] =
      ('[' :: sepList [',', ' '] (dumpsList xs)) ++ [']'] from by simp]
    exact List.getLast?_concat _
  | obj kvs =>
    refine ⟨'}', ?_, by decide⟩
    rw [dumps_obj_eq]
    rw [show '{' :: sepList [',', ' '] (dumpsMembers kvs) ++ ['}'] =
      ('{' :: sepList [',', ' '] (dumpsMembers kvs)) ++ ['}'] from by simp]
    exact List.getLast?_concat _

theorem pyStrip_eq_self (l : List Char) (hne : l ≠ [])
    (hh : ∀ c, l.head? = some c → isPySpace c = false)
    (hl : ∀ c, l.getLast? = some c → isPySpace c = false) :
    pyStrip l = l := by
  obtain ⟨c, t, rfl⟩ := List.exists_cons_of_ne_nil hne
  have hc : isPySpace c = false := hh c rfl
  unfold pyStrip
  rw [List.dropWhile_cons_of_neg (by simp [hc])]
  obtain ⟨d, hd, -⟩ := exists_getLast hne
  have hdp : isPySpace d = false := hl d hd
  have hrev : (c :: t).reverse.head? = some d := by
    rw [List.head?_reverse]
    exact hd
  obtain ⟨d2, t2, hrv⟩ : ∃ d2 t2, (c :: t).reverse = d2 :: t2 :=
    List.exists_cons_of_ne_nil (by simp)
  rw [hrv] at hrev
  simp only [List.head?_cons, Option.some.injEq] at hrev
  subst hrev
  rw [hrv, List.dropWhile_cons_of_neg (by simp [hdp]), ← hrv,
    List.reverse_reverse]

theorem dumps_pyStrip (x : Json) : pyStrip (dumps x) = dumps x := by
  apply pyStrip_eq_self _ (dumps_ne_nil x)
  · intro c hc
    obtain ⟨c2, t, hct, -, hp, -, -⟩ := dumps_head x
    rw [hct] at hc
    simp only [List.head?_cons, Option.some.injEq] at hc
    subst hc
    exact hp
  · intro c hc
    obtain ⟨d, hd, hdp⟩ := dumps_last x
    rw [hd] at hc
    cases hc
    exact hdp

theorem loads_dumps (x : Json) : loads (dumps x) = some x := by
  unfold loads
  rw [show skipWs (dumps x) = dumps x from by
    obtain ⟨c, t, hct, hw, -, -, -⟩ := dumps_head x
    rw [hct]
    exact skipWs_cons_of_not_ws c t hw]
  have hp := (parse_dumps ((dumps x).length + 1)).1 x [] (by omega)
    (by intro c hc; simp at hc)
  rw [List.append_nil] at hp
  rw [hp]
  rfl

theorem splitNl_line (l rest : List Char) (hl : '\n' ∉ l) :
    splitNl (l ++ '\n' :: rest) = l :: splitNl rest := by
  induction l with
  | nil =>
    show splitNl ('\n' :: rest) = [] :: splitNl rest
    simp [splitNl]
  | cons c t iht =>
    have hc : ¬ c = '\n' := fun h => hl (h ▸ List.mem_cons_self _ _)
    have iht2 := iht (fun hm => hl (List.mem_cons_of_mem _ hm))
    show splitNl (c :: (t ++ '\n' :: rest)) = (c :: t) :: splitNl rest
    simp only [splitNl, if_neg hc, iht2]

/-- C7.  Writing any list of JSON records with `write_jsonl` and reading
the file back with `read_jsonl` returns exactly the original list: every
record parses back to itself (order and all field values preserved,
non-ASCII characters included, since `dumps`/`loads` invert each other),
each written line is newline-free and survives the reader's `strip`, and
blank-line filtering removes only the trailing empty line. -/
theorem write_read_jsonl_roundtrip :
    ∀ data : List Json, read_jsonl (write_jsonl data) = some data := by
  intro data
  induction data with
  | nil => rfl
  | cons x rest ihd =>
    have hw : write_jsonl (x :: rest) = dumps x ++ '\n' :: write_jsonl rest := by
      simp [write_jsonl]
    rw [hw]
    simp only [read_jsonl] at ihd ⊢
    rw [splitNl_line _ _ (dumps_no_newline x)]
    simp only [List.map_cons, dumps_pyStrip x, List.filter_cons]
    rw [if_pos (by simp [List.isEmpty_iff, dumps_ne_nil x])]
    rw [List.mapM_cons, loads_dumps x, ihd]
    rfl

end RAGvix
